import Mathlib

/-!
Verification of the synchronization core in `src/threads/synch.c`
(semaphores, locks with nested priority donation, Mesa-style condition
variables).  The C code is shallowly embedded as pure state transformers
over `KState`.  Kernel-internal machinery that lives outside `synch.c`
(the ready list, `thread_block`/`thread_unblock`, `priority_yield`, the
`priority_higher` comparator from `thread.c`, and the generic list
routines from `lib/kernel/list.c`) is modelled from the specification's
interface contract (spec sections 3, 6 and 11); each such definition is
marked in its doc comment.
-/

set_option maxHeartbeats 1000000

namespace Synch

/-- Thread identifier (models `struct thread *`). -/
abbrev Tid := Nat
/-- Semaphore identifier (models `struct semaphore *`). -/
abbrev SemId := Nat
/-- Lock identifier (models `struct lock *`). -/
abbrev LockId := Nat
/-- Condition-variable identifier (models `struct condition *`). -/
abbrev CondId := Nat

/-- Thread status (`enum thread_status`, restricted to what synch.c reads). -/
inductive TStatus where
  | running
  | ready
  | blocked
deriving DecidableEq, Repr

/-- The fields of `struct thread` that synch.c reads or writes:
`priority`, `original_priority` (sentinel `-1` = no active donation),
`status`, `wait_semaphore`, `wait_lock`, and the `locks` list of
currently-held locks. -/
structure Thread where
  priority : Int
  original_priority : Int
  status : TStatus
  wait_semaphore : Option SemId
  wait_lock : Option LockId
  locks : List LockId
deriving DecidableEq, Repr

/-- `struct semaphore`: counter plus waiter list (synch.h). -/
structure Semaphore where
  value : Nat
  waiters : List Tid
deriving DecidableEq, Repr

/-- `struct lock`: holder plus embedded semaphore; the embedded
semaphore `&lock->semaphore` is modelled as a `SemId` owned by the lock. -/
structure Lock where
  holder : Option Tid
  semaId : SemId
deriving DecidableEq, Repr

/-- One `struct semaphore_elem` on a condition's waiter list
(synch.c lines 352-358): a private semaphore plus the priority snapshot. -/
structure CWaiter where
  semaId : SemId
  priority : Int
deriving DecidableEq, Repr

/-- Kernel state touched by synch.c: the thread table, the semaphore and
lock heaps, condition waiter lists, the scheduler's ready list and the
identity of the running thread.  `yield_log` records the outcome of each
cooperative preemption check (`priority_yield`), so that "a preemption
check was triggered" is observable in the model. -/
structure KState where
  threads : Tid → Thread
  semas : SemId → Semaphore
  locks : LockId → Lock
  conds : CondId → List CWaiter
  ready_list : List Tid
  current : Tid
  yield_log : List Bool

def setThread (st : KState) (t : Tid) (th : Thread) : KState :=
  { st with threads := Function.update st.threads t th }

def setSema (st : KState) (s : SemId) (sm : Semaphore) : KState :=
  { st with semas := Function.update st.semas s sm }

def setLock (st : KState) (l : LockId) (lk : Lock) : KState :=
  { st with locks := Function.update st.locks l lk }

def setCond (st : KState) (c : CondId) (ws : List CWaiter) : KState :=
  { st with conds := Function.update st.conds c ws }

/-- Modelled from the spec: `lib/kernel/list.c`'s `list_insert_ordered`
(not under src/): insert `x` immediately before the first element `y`
with `less x y`; FIFO among elements that compare equal. -/
def list_insert_ordered (less : α → α → Bool) (x : α) : List α → List α
  | [] => [x]
  | y :: ys => if less x y then x :: y :: ys else y :: list_insert_ordered less x ys

/-- Modelled from the spec: the scan inside `lib/kernel/list.c`'s
`list_max` (not under src/): fold over the remaining elements, replacing
the current maximum only on strict `less`, so the first maximal element
wins. -/
def list_max_aux (less : α → α → Bool) (m : α) : List α → α
  | [] => m
  | e :: es => list_max_aux less (if less m e then e else m) es

/-- Modelled from the spec: `thread.c`'s `priority_higher` comparator
(not under src/), used by every `list_insert_ordered` call in synch.c:
orders threads by strictly greater current priority, which yields
descending priority order with FIFO among equal priorities (spec section 3). -/
def priority_higher (st : KState) (a b : Tid) : Bool :=
  (st.threads a).priority > (st.threads b).priority

/-- Modelled from the spec: `suspend_current` / `thread_block` (not under
src/): the caller becomes non-runnable; the dispatch that then picks the
next thread is out of scope (spec section 1). -/
def thread_block (st : KState) : KState :=
  setThread st st.current { st.threads st.current with status := TStatus.blocked }

/-- Modelled from the spec: `make_runnable` / `thread_unblock` (not under
src/): mark `t` ready and put it into the ready list at the position its
current priority dictates (the ready queue's ordering contract, spec
section 6). -/
def thread_unblock (st : KState) (t : Tid) : KState :=
  let st1 := setThread st t { st.threads t with status := TStatus.ready }
  { st1 with ready_list := list_insert_ordered (priority_higher st1) t st1.ready_list }

/-- Decision of the cooperative preemption check: does the head of the
ready list outrank the running thread? -/
def would_yield (st : KState) : Bool :=
  match st.ready_list with
  | [] => false
  | t :: _ => (st.threads t).priority > (st.threads st.current).priority

/-- Modelled from the spec: `maybe_preempt` / `priority_yield` (not under
src/): perform the cooperative preemption check.  The context switch
itself belongs to the scheduler (out of scope, spec section 1); the model
records the check's outcome in `yield_log`. -/
def priority_yield (st : KState) : KState :=
  { st with yield_log := st.yield_log ++ [would_yield st] }

/-! ### Semaphores (synch.c lines 45-126) -/

/-- `sema_init` (synch.c lines 45-52). -/
def sema_init (st : KState) (s : SemId) (v : Nat) : KState :=
  setSema st s { value := v, waiters := [] }

/-- Result of running `sema_down`'s body up to its first suspension
point: either the caller decremented the counter and continues, or it
enqueued itself and blocked. -/
inductive DownRes where
  | completed (st : KState)
  | blocked (st : KState)

/-- The kernel state carried by a `DownRes`. -/
def DownRes.state : DownRes → KState
  | .completed st => st
  | .blocked st => st

/-- One iteration of `sema_down`'s loop (synch.c lines 61-77): while the
value is 0, insert the caller into the waiter list in priority order,
record `wait_semaphore`, and block; otherwise decrement the value. -/
def sema_down_step (st : KState) (s : SemId) : DownRes :=
  if (st.semas s).value = 0 then
    let st1 := setSema st s
      { st.semas s with
        waiters := list_insert_ordered (priority_higher st) st.current (st.semas s).waiters }
    let st2 := setThread st1 st.current
      { st1.threads st.current with wait_semaphore := some s }
    DownRes.blocked (thread_block st2)
  else
    DownRes.completed (setSema st s { st.semas s with value := (st.semas s).value - 1 })

/-- `sema_try_down` (synch.c lines 84-103): decrement and succeed when
the value is positive, otherwise fail without blocking. -/
def sema_try_down (st : KState) (s : SemId) : KState × Bool :=
  if (st.semas s).value > 0 then
    (setSema st s { st.semas s with value := (st.semas s).value - 1 }, true)
  else
    (st, false)

/-- `sema_up` (synch.c lines 109-126): if the waiter list is non-empty,
pop its head, clear that thread's `wait_semaphore` and unblock it; always
increment the value; finally run the cooperative preemption check. -/
def sema_up (st : KState) (s : SemId) : KState :=
  let st1 :=
    match (st.semas s).waiters with
    | [] => st
    | w :: rest =>
      let sA := setSema st s { st.semas s with waiters := rest }
      let sB := setThread sA w { sA.threads w with wait_semaphore := none }
      thread_unblock sB w
  let st2 := setSema st1 s { st1.semas s with value := (st1.semas s).value + 1 }
  priority_yield st2

/-! ### Locks and priority donation (synch.c lines 180-350) -/

/-- `lock_init` (synch.c lines 180-187): no holder, embedded semaphore
initialized to 1 (the lock's `semaId` wiring is part of the state). -/
def lock_init (st : KState) (l : LockId) : KState :=
  let st1 := setLock st l { st.locks l with holder := none }
  sema_init st1 (st.locks l).semaId 1

/-- `lock_held_by_current_thread` (synch.c lines 344-350). -/
def lock_held_by_current_thread (st : KState) (l : LockId) : Bool :=
  (st.locks l).holder = some st.current

/-- `update_ready_list_when_thread_priority_changes` (synch.c lines
189-198): remove `t` from the ready list, reinsert it at the position
its new priority dictates, then run the preemption check.  (The C calls
`list_remove` on `t->elem` wherever it sits; here `t` is removed from
the ready list, a no-op when absent.) -/
def update_ready_list_when_thread_priority_changes (st : KState) (t : Tid) : KState :=
  let st1 := { st with ready_list := st.ready_list.erase t }
  let st2 := { st1 with ready_list := list_insert_ordered (priority_higher st1) t st1.ready_list }
  priority_yield st2

/-- `update_wait_list_when_thread_priority_changes` (synch.c lines
200-208): remove `t` from the wait list it occupies and reinsert it at
the position its new priority dictates. -/
def update_wait_list_when_thread_priority_changes (st : KState) (t : Tid) (s : SemId) : KState :=
  setSema st s
    { st.semas s with
      waiters := list_insert_ordered (priority_higher st) t ((st.semas s).waiters.erase t) }

/-- The state after the baseline-saving step of `donate_nested`
(synch.c lines 218-219): record the pre-donation priority into
`original_priority` when it is unset. -/
def donate_st1 (st : KState) (h : Tid) : KState :=
  if (st.threads h).original_priority = -1 then
    setThread st h { st.threads h with original_priority := (st.threads h).priority }
  else st

/-- The state after the priority-raising step of `donate_nested`
(synch.c line 220): the holder's priority becomes the donor's. -/
def donate_st2 (st : KState) (a h : Tid) : KState :=
  setThread (donate_st1 st h) h
    { (donate_st1 st h).threads h with priority := (st.threads a).priority }

/-- The state after the wait-list re-sort of `donate_nested`'s blocked
branch (synch.c lines 225-227). -/
def donate_st3 (st : KState) (a h : Tid) : KState :=
  match ((donate_st2 st a h).threads h).wait_semaphore with
  | some s => update_wait_list_when_thread_priority_changes (donate_st2 st a h) h s
  | none => donate_st2 st a h

/-- Body of `donate_nested` (synch.c lines 210-231), with explicit fuel.
The C recursion consumes `num_donated_threads` 0, 1, ..., and stops at
exactly 8; `donate_nested` below supplies fuel `9 - num`, which never
runs out before the `num = 8` check fires on any call chain that starts
at `num ≤ 8` (every call in synch.c starts at 0).  A `none` lock is
treated as having no holder; in the C that recursive call would
dereference a NULL lock — fatal, as the spec's section 7 prescribes for
an absent handle — so no theorem below draws a conclusion from this
branch at a reachable input (a real lock holder always carries the
`wait_lock` that `lock_acquire` recorded). -/
def donate_fuel : Nat → KState → Tid → Option LockId → Nat → KState
  | 0, st, _, _, _ => st
  | fuel + 1, st, a, ol, num =>
    if num = 8 then st
    else
      match ol with
      | none => st
      | some l =>
        match (st.locks l).holder with
        | none => st
        | some h =>
          if (st.threads h).priority < (st.threads a).priority then
            if ((donate_st2 st a h).threads h).status = TStatus.running then
              update_ready_list_when_thread_priority_changes (donate_st2 st a h) h
            else
              donate_fuel fuel (donate_st3 st a h) h
                (((donate_st3 st a h).threads h).wait_lock) (num + 1)
          else st

/-- `donate_nested` (synch.c lines 210-231). -/
def donate_nested (st : KState) (a : Tid) (ol : Option LockId) (num : Nat) : KState :=
  donate_fuel (9 - num) st a ol num

/-- Number of donation steps (bodies that actually raise a priority)
performed by `donate_nested`; mirrors `donate_fuel`'s control flow. -/
def donate_steps_fuel : Nat → KState → Tid → Option LockId → Nat → Nat
  | 0, _, _, _, _ => 0
  | fuel + 1, st, a, ol, num =>
    if num = 8 then 0
    else
      match ol with
      | none => 0
      | some l =>
        match (st.locks l).holder with
        | none => 0
        | some h =>
          if (st.threads h).priority < (st.threads a).priority then
            if ((donate_st2 st a h).threads h).status = TStatus.running then 1
            else
              1 + donate_steps_fuel fuel (donate_st3 st a h) h
                    (((donate_st3 st a h).threads h).wait_lock) (num + 1)
          else 0

/-- Donation-step count of `donate_nested`. -/
def donate_steps (st : KState) (a : Tid) (ol : Option LockId) (num : Nat) : Nat :=
  donate_steps_fuel (9 - num) st a ol num

/-- `max_waiter_priority` (synch.c lines 233-240): priority of the front
waiter of the lock's semaphore, or `-1` when nobody waits.  (Value
semantics of the C, which copies the list header by value.) -/
def max_waiter_priority (st : KState) (l : LockId) : Int :=
  match (st.semas (st.locks l).semaId).waiters with
  | [] => -1
  | w :: _ => (st.threads w).priority

/-- `lock_priority_lower` (synch.c lines 245-253). -/
def lock_priority_lower (st : KState) (a b : LockId) : Bool :=
  max_waiter_priority st a < max_waiter_priority st b

/-- The bookkeeping on the success path of `lock_acquire` /
`lock_try_acquire` (synch.c lines 273-274 and 292-295): record the
caller as holder and append the lock to its held-locks list. -/
def lock_acquire_finish (st : KState) (l : LockId) : KState :=
  let st1 := setLock st l { st.locks l with holder := some st.current }
  setThread st1 st.current
    { st1.threads st.current with locks := (st1.threads st.current).locks ++ [l] }

/-- Result of running `lock_acquire` up to its first suspension point. -/
inductive AcqRes where
  | completed (st : KState)
  | blocked (st : KState)

/-- The kernel state carried by an `AcqRes`. -/
def AcqRes.state : AcqRes → KState
  | .completed st => st
  | .blocked st => st

/-- `lock_acquire` (synch.c lines 263-275): assert the caller does not
hold the lock, run nested donation, record `wait_lock`, then `sema_down`
on the lock's semaphore; on the non-blocking path, finish the holder
bookkeeping.  A failed assertion is `Except.error ()`. -/
def lock_acquire (st : KState) (l : LockId) : Except Unit AcqRes :=
  if lock_held_by_current_thread st l then Except.error ()
  else
    let st1 := donate_nested st st.current (some l) 0
    let st2 := setThread st1 st1.current
      { st1.threads st1.current with wait_lock := some l }
    match sema_down_step st2 (st2.locks l).semaId with
    | DownRes.completed st3 => Except.ok (AcqRes.completed (lock_acquire_finish st3 l))
    | DownRes.blocked st3 => Except.ok (AcqRes.blocked st3)

/-- `lock_try_acquire` (synch.c lines 283-297). -/
def lock_try_acquire (st : KState) (l : LockId) : Except Unit (KState × Bool) :=
  if lock_held_by_current_thread st l then Except.error ()
  else
    let p := sema_try_down st (st.locks l).semaId
    if p.2 then Except.ok (lock_acquire_finish p.1 l, true)
    else Except.ok (p.1, false)

/-- `update_thread_priority` (synch.c lines 299-321): recompute the
caller's priority after a release.  With no active donation
(`original_priority = -1`) do nothing; with no held locks restore the
base and clear it; otherwise take the held lock with the highest front
waiter priority and keep that value when it exceeds the base, else
restore the base and clear it. -/
def update_thread_priority (st : KState) : KState :=
  if (st.threads st.current).original_priority = -1 then st
  else
    match (st.threads st.current).locks with
    | [] =>
      setThread st st.current
        { st.threads st.current with
          priority := (st.threads st.current).original_priority, original_priority := -1 }
    | l0 :: rest =>
      if max_waiter_priority st (list_max_aux (fun a b => lock_priority_lower st a b) l0 rest)
          > (st.threads st.current).original_priority then
        setThread st st.current
          { st.threads st.current with
            priority :=
              max_waiter_priority st
                (list_max_aux (fun a b => lock_priority_lower st a b) l0 rest) }
      else
        setThread st st.current
          { st.threads st.current with
            priority := (st.threads st.current).original_priority, original_priority := -1 }

/-- `lock_release` (synch.c lines 328-339): assert the caller holds the
lock; remove the lock from the caller's held list, clear the holder,
recompute the caller's priority, and `sema_up` the lock's semaphore. -/
def lock_release (st : KState) (l : LockId) : Except Unit KState :=
  if lock_held_by_current_thread st l then
    let st1 := setThread st st.current
      { st.threads st.current with locks := (st.threads st.current).locks.erase l }
    let st2 := setLock st1 l { st1.locks l with holder := none }
    let st3 := update_thread_priority st2
    Except.ok (sema_up st3 (st.locks l).semaId)
  else Except.error ()

/-! ### Condition variables (synch.c lines 352-454) -/

/-- `cond_priority_higher` (synch.c lines 362-369): orders condition
waiters by strictly greater priority snapshot. -/
def cond_priority_higher (a b : CWaiter) : Bool :=
  a.priority > b.priority

/-- `cond_init` (synch.c lines 374-380). -/
def cond_init (st : KState) (c : CondId) : KState :=
  setCond st c []

/-- `cond_wait` (synch.c lines 402-418) up to its suspension point:
assert the caller holds the lock; initialize the stack waiter's private
semaphore to 0 and snapshot the caller's priority; insert the waiter
into the condition's list ordered by snapshot; release the lock; then
`sema_down` on the private semaphore.  `newSem` models the fresh stack
address `&waiter.semaphore`. -/
def cond_wait (st : KState) (c : CondId) (l : LockId) (newSem : SemId) : Except Unit DownRes :=
  if lock_held_by_current_thread st l then
    let st1 := sema_init st newSem 0
    let w : CWaiter := { semaId := newSem, priority := (st1.threads st1.current).priority }
    let st2 := setCond st1 c (list_insert_ordered cond_priority_higher w (st1.conds c))
    match lock_release st2 l with
    | Except.error e => Except.error e
    | Except.ok st3 => Except.ok (sema_down_step st3 newSem)
  else Except.error ()

/-- The remainder of `cond_wait` after the private `sema_down` returns
(synch.c line 417): reacquire the lock with full acquire semantics. -/
def cond_wait_rest (st : KState) (l : LockId) : Except Unit AcqRes :=
  lock_acquire st l

/-- `cond_signal` (synch.c lines 427-438): assert the caller holds the
lock; if the condition's waiter list is non-empty, pop its head and
`sema_up` that waiter's private semaphore. -/
def cond_signal (st : KState) (c : CondId) (l : LockId) : Except Unit KState :=
  if lock_held_by_current_thread st l then
    Except.ok
      (match st.conds c with
       | [] => st
       | w :: rest => sema_up (setCond st c rest) w.semaId)
  else Except.error ()

/-- Loop body of `cond_broadcast` (synch.c lines 446-454), with fuel:
signal while the waiter list is non-empty.  Each successful signal
removes the head of the list, so fuel `(st.conds c).length` never runs
out before the list empties. -/
def cond_broadcast_fuel : Nat → KState → CondId → LockId → Except Unit KState
  | 0, st, _, _ => Except.ok st
  | fuel + 1, st, c, l =>
    match st.conds c with
    | [] => Except.ok st
    | _ :: _ =>
      match cond_signal st c l with
      | Except.error e => Except.error e
      | Except.ok st2 => cond_broadcast_fuel fuel st2 c l

/-- `cond_broadcast` (synch.c lines 446-454). -/
def cond_broadcast (st : KState) (c : CondId) (l : LockId) : Except Unit KState :=
  cond_broadcast_fuel (st.conds c).length st c l

/-! ### Operation-sequence model of a single semaphore (for the
reachability invariant).  `sema_down` (synch.c lines 61-77) is a loop:
a woken thread re-checks `value` and either decrements it and returns
or re-enqueues itself and blocks again.  A thread that `sema_up` has
popped from the waiter list and unblocked, but that has not yet resumed
its loop iteration, is recorded in `pending`. -/

/-- State of one semaphore together with the threads inside a
`sema_down` loop that have been woken but not yet resumed. -/
structure SemSt where
  value : Nat
  waiters : List Tid
  pending : List Tid
deriving DecidableEq, Repr

/-- One observable step of the semaphore operations of synch.c, for a
fixed priority assignment `pr` (priorities do not change in this model).
Constructors follow the source:
`down_fast`/`down_block` are the two paths through `sema_down`'s first
loop test (lines 69-75); `resume_take`/`resume_reblock` are the re-check
a woken thread performs when its `thread_block` returns (same loop);
`up_wake`/`up_empty` are `sema_up` (lines 117-123); `try_down` is the
successful path of `sema_try_down` (lines 93-97). -/
inductive SemStep (pr : Tid → Int) : SemSt → SemSt → Prop where
  | down_fast (s : SemSt) :
      s.value ≠ 0 → SemStep pr s { s with value := s.value - 1 }
  | down_block (s : SemSt) (t : Tid) :
      s.value = 0 → t ∉ s.waiters → t ∉ s.pending →
      SemStep pr s
        { s with waiters := list_insert_ordered (fun a b => pr a > pr b) t s.waiters }
  | resume_take (s : SemSt) (t : Tid) :
      s.value ≠ 0 → t ∈ s.pending →
      SemStep pr s { s with value := s.value - 1, pending := s.pending.erase t }
  | resume_reblock (s : SemSt) (t : Tid) :
      s.value = 0 → t ∈ s.pending →
      SemStep pr s
        { s with
          waiters := list_insert_ordered (fun a b => pr a > pr b) t s.waiters,
          pending := s.pending.erase t }
  | up_wake (s : SemSt) (w : Tid) (rest : List Tid) :
      s.waiters = w :: rest →
      SemStep pr s { value := s.value + 1, waiters := rest, pending := s.pending ++ [w] }
  | up_empty (s : SemSt) :
      s.waiters = [] → SemStep pr s { s with value := s.value + 1 }
  | try_down (s : SemSt) :
      s.value ≠ 0 → SemStep pr s { s with value := s.value - 1 }

/-- Reachability under any sequence of semaphore operations. -/
def SemReach (pr : Tid → Int) : SemSt → SemSt → Prop :=
  Relation.ReflTransGen (SemStep pr)

/-- The state `sema_init` produces for initial value `v`
(synch.c lines 45-52): no waiters, no pending wakeups. -/
def semInitSt (v : Nat) : SemSt :=
  { value := v, waiters := [], pending := [] }

/-! ### Derived notions used in the statements -/

/-- Current priority of a thread. -/
def tprio (st : KState) (w : Tid) : Int := (st.threads w).priority

/-- A semaphore's waiter list is ordered by current priority,
descending (spec section 3's ordering invariant). -/
def SemSorted (st : KState) (s : SemId) : Prop :=
  ((st.semas s).waiters.map (tprio st)).Pairwise (· ≥ ·)

/-- Priorities of the waiters blocked on a lock's semaphore. -/
def waiterPrios (st : KState) (l : LockId) : List Int :=
  ((st.semas (st.locks l).semaId).waiters).map (tprio st)

/-- Maximum of a list of priorities, with the code's empty default -1. -/
def maxList (xs : List Int) : Int := xs.foldr max (-1)

/-- Following the spec's words (for the release recomputation): "the
highest priority of any waiter currently blocked on any still-held
lock", taken over the lock list `ls`. -/
def spec_max_waiter_priority (st : KState) (ls : List LockId) : Int :=
  maxList ((ls.map (waiterPrios st)).flatten)

/-! ### Example states used to instantiate theorems on concrete inputs -/

/-- A quiescent thread record. -/
def idleThread : Thread :=
  { priority := 0, original_priority := -1, status := TStatus.ready,
    wait_semaphore := none, wait_lock := none, locks := [] }

/-- Donation chain: thread 0 (running, priority 100) donates into lock 0;
for every `i ≥ 1`, thread `i` holds lock `i - 1`, is blocked, and waits
for lock `i`, so the donation propagates until the depth bound stops it. -/
def exChain : KState :=
  { threads := fun t =>
      if t = 0 then
        { priority := 100, original_priority := -1, status := TStatus.running,
          wait_semaphore := none, wait_lock := none, locks := [] }
      else
        { priority := 40, original_priority := -1, status := TStatus.blocked,
          wait_semaphore := none, wait_lock := some t, locks := [t - 1] },
    semas := fun _ => { value := 0, waiters := [] },
    locks := fun l => { holder := some (l + 1), semaId := l },
    conds := fun _ => [],
    ready_list := [], current := 0, yield_log := [] }

/-- Thread 0 (running, priority 30) donates into lock 0, whose holder,
thread 1, is READY at priority 10 and sits in the ready list behind the
priority-20 thread 2.  Thread 1 keeps the stale `wait_lock = some 0`
that `lock_acquire` left behind (the only way a thread ever holds a
lock, per the C4 frame property), so the recursive
`donate_nested(thread 1, lock 0, 1)` finds lock 0's holder — thread 1
itself, already at the donated priority 30 — and stops at the
`priority < priority` test, in the C exactly as in the model. -/
def exReadyHolder : KState :=
  { threads := fun t =>
      if t = 0 then
        { priority := 30, original_priority := -1, status := TStatus.running,
          wait_semaphore := none, wait_lock := none, locks := [] }
      else if t = 1 then
        { priority := 10, original_priority := -1, status := TStatus.ready,
          wait_semaphore := none, wait_lock := some 0, locks := [0] }
      else
        { priority := 20, original_priority := -1, status := TStatus.ready,
          wait_semaphore := none, wait_lock := none, locks := [] },
    semas := fun _ => { value := 0, waiters := [] },
    locks := fun _ => { holder := some 1, semaId := 0 },
    conds := fun _ => [],
    ready_list := [2, 1], current := 0, yield_log := [] }

/-- A semaphore with one blocked waiter (thread 1, priority 9) that
outranks the running thread 0 (priority 5). -/
def exUpState : KState :=
  { threads := fun t =>
      if t = 0 then
        { priority := 5, original_priority := -1, status := TStatus.running,
          wait_semaphore := none, wait_lock := none, locks := [] }
      else
        { priority := 9, original_priority := -1, status := TStatus.blocked,
          wait_semaphore := some 0, wait_lock := none, locks := [] },
    semas := fun _ => { value := 0, waiters := [1] },
    locks := fun l => { holder := none, semaId := l },
    conds := fun _ => [],
    ready_list := [], current := 0, yield_log := [] }

/-- Lock 0 is held by the running thread 0 (used for the assertion
contract: re-acquisition must fail, release must succeed). -/
def exHeld : KState :=
  { threads := fun t =>
      if t = 0 then
        { priority := 31, original_priority := -1, status := TStatus.running,
          wait_semaphore := none, wait_lock := none, locks := [0] }
      else idleThread,
    semas := fun _ => { value := 0, waiters := [] },
    locks := fun _ => { holder := some 0, semaId := 0 },
    conds := fun _ => [],
    ready_list := [], current := 0, yield_log := [] }

/-- Lock 0 is free; the running thread 0 holds nothing. -/
def exFree : KState :=
  { threads := fun t =>
      if t = 0 then
        { priority := 31, original_priority := -1, status := TStatus.running,
          wait_semaphore := none, wait_lock := none, locks := [] }
      else idleThread,
    semas := fun _ => { value := 1, waiters := [] },
    locks := fun _ => { holder := none, semaId := 0 },
    conds := fun _ => [],
    ready_list := [], current := 0, yield_log := [] }

/-- Thread 0 (running, priority 50, donated: base 20) holds locks 0 and
1; thread 2 (priority 50) waits on lock 0, thread 3 (priority 35) waits
on lock 1.  Releasing lock 0 must drop thread 0's priority to 35 (the
donation from still-held lock 1), keeping the base recorded. -/
def exRelease : KState :=
  { threads := fun t =>
      if t = 0 then
        { priority := 50, original_priority := 20, status := TStatus.running,
          wait_semaphore := none, wait_lock := none, locks := [0, 1] }
      else if t = 2 then
        { priority := 50, original_priority := -1, status := TStatus.blocked,
          wait_semaphore := some 0, wait_lock := some 0, locks := [] }
      else if t = 3 then
        { priority := 35, original_priority := -1, status := TStatus.blocked,
          wait_semaphore := some 1, wait_lock := some 1, locks := [] }
      else idleThread,
    semas := fun s => if s = 0 then { value := 0, waiters := [2] }
      else if s = 1 then { value := 0, waiters := [3] }
      else { value := 1, waiters := [] },
    locks := fun l => if l = 0 then { holder := some 0, semaId := 0 }
      else if l = 1 then { holder := some 0, semaId := 1 }
      else { holder := none, semaId := l },
    conds := fun _ => [],
    ready_list := [], current := 0, yield_log := [] }

/-- The state `lock_release` produces when thread 0 releases lock 0 in
`exRelease`. -/
def exReleaseRes : KState :=
  match lock_release exRelease 0 with
  | Except.ok st2 => st2
  | Except.error _ => exRelease

/-- The result of thread 0 acquiring the free lock 0 in `exFree`. -/
def exAcqRes : AcqRes :=
  match lock_acquire exFree 0 with
  | Except.ok r => r
  | Except.error _ => AcqRes.completed exFree

/-- A condition variable (id 0) with two queued waiters (private
semaphores 7 and 8, snapshots 30 and 20), protected by lock 0 held by
the running thread 0. -/
def exCond : KState :=
  { threads := fun t =>
      if t = 0 then
        { priority := 31, original_priority := -1, status := TStatus.running,
          wait_semaphore := none, wait_lock := none, locks := [0] }
      else idleThread,
    semas := fun _ => { value := 0, waiters := [] },
    locks := fun _ => { holder := some 0, semaId := 5 },
    conds := fun _ => [{ semaId := 7, priority := 30 }, { semaId := 8, priority := 20 }],
    ready_list := [], current := 0, yield_log := [] }

/-- The state `cond_broadcast` produces on `exCond`. -/
def exBroadcastRes : KState :=
  match cond_broadcast exCond 0 0 with
  | Except.ok st2 => st2
  | Except.error _ => exCond

/-- The blocked state thread 0 reaches inside `cond_wait` on `exCond`
with fresh private semaphore 9. -/
def exCondWaitRes : KState :=
  match cond_wait exCond 0 0 9 with
  | Except.ok (DownRes.blocked stb) => stb
  | _ => exCond

/-! ### Helper lemmas -/

theorem donate_nested_at_8 (st : KState) (a : Tid) (ol : Option LockId) :
    donate_nested st a ol 8 = st := by
  simp [donate_nested, donate_fuel]

theorem donate_steps_fuel_le (fuel : Nat) :
    ∀ st a ol num, num ≤ 8 → donate_steps_fuel fuel st a ol num ≤ 8 - num := by
  induction fuel with
  | zero => intro st a ol num _; simp [donate_steps_fuel]
  | succ fuel ih =>
    intro st a ol num hnum
    unfold donate_steps_fuel
    split
    · omega
    next h8 =>
      cases ol with
      | none => exact Nat.zero_le _
      | some l =>
        simp only
        cases hh : (st.locks l).holder with
        | none => exact Nat.zero_le _
        | some hthr =>
          simp only
          split
          next hlt =>
            split
            · omega
            · exact le_trans
                (Nat.add_le_add_left (ih _ hthr _ (num + 1) (by omega)) 1) (by omega)
          next => exact Nat.zero_le _

@[simp] theorem setThread_semas (st : KState) (t : Tid) (th : Thread) :
    (setThread st t th).semas = st.semas := rfl

@[simp] theorem setThread_locks (st : KState) (t : Tid) (th : Thread) :
    (setThread st t th).locks = st.locks := rfl

@[simp] theorem setThread_conds (st : KState) (t : Tid) (th : Thread) :
    (setThread st t th).conds = st.conds := rfl

@[simp] theorem setThread_ready (st : KState) (t : Tid) (th : Thread) :
    (setThread st t th).ready_list = st.ready_list := rfl

@[simp] theorem setThread_current (st : KState) (t : Tid) (th : Thread) :
    (setThread st t th).current = st.current := rfl

@[simp] theorem setThread_yield_log (st : KState) (t : Tid) (th : Thread) :
    (setThread st t th).yield_log = st.yield_log := rfl

@[simp] theorem setThread_apply (st : KState) (t : Tid) (th : Thread) (w : Tid) :
    (setThread st t th).threads w = if w = t then th else st.threads w :=
  Function.update_apply st.threads t th w

@[simp] theorem setSema_threads (st : KState) (s : SemId) (sm : Semaphore) :
    (setSema st s sm).threads = st.threads := rfl

@[simp] theorem setSema_locks (st : KState) (s : SemId) (sm : Semaphore) :
    (setSema st s sm).locks = st.locks := rfl

@[simp] theorem setSema_conds (st : KState) (s : SemId) (sm : Semaphore) :
    (setSema st s sm).conds = st.conds := rfl

@[simp] theorem setSema_ready (st : KState) (s : SemId) (sm : Semaphore) :
    (setSema st s sm).ready_list = st.ready_list := rfl

@[simp] theorem setSema_current (st : KState) (s : SemId) (sm : Semaphore) :
    (setSema st s sm).current = st.current := rfl

@[simp] theorem setSema_yield_log (st : KState) (s : SemId) (sm : Semaphore) :
    (setSema st s sm).yield_log = st.yield_log := rfl

@[simp] theorem setSema_apply (st : KState) (s : SemId) (sm : Semaphore) (s0 : SemId) :
    (setSema st s sm).semas s0 = if s0 = s then sm else st.semas s0 :=
  Function.update_apply st.semas s sm s0

@[simp] theorem setLock_threads (st : KState) (l : LockId) (lk : Lock) :
    (setLock st l lk).threads = st.threads := rfl

@[simp] theorem setLock_semas (st : KState) (l : LockId) (lk : Lock) :
    (setLock st l lk).semas = st.semas := rfl

@[simp] theorem setLock_conds (st : KState) (l : LockId) (lk : Lock) :
    (setLock st l lk).conds = st.conds := rfl

@[simp] theorem setLock_ready (st : KState) (l : LockId) (lk : Lock) :
    (setLock st l lk).ready_list = st.ready_list := rfl

@[simp] theorem setLock_current (st : KState) (l : LockId) (lk : Lock) :
    (setLock st l lk).current = st.current := rfl

@[simp] theorem setLock_yield_log (st : KState) (l : LockId) (lk : Lock) :
    (setLock st l lk).yield_log = st.yield_log := rfl

@[simp] theorem setLock_apply (st : KState) (l : LockId) (lk : Lock) (l0 : LockId) :
    (setLock st l lk).locks l0 = if l0 = l then lk else st.locks l0 :=
  Function.update_apply st.locks l lk l0

@[simp] theorem setCond_threads (st : KState) (c : CondId) (ws : List CWaiter) :
    (setCond st c ws).threads = st.threads := rfl

@[simp] theorem setCond_semas (st : KState) (c : CondId) (ws : List CWaiter) :
    (setCond st c ws).semas = st.semas := rfl

@[simp] theorem setCond_locks (st : KState) (c : CondId) (ws : List CWaiter) :
    (setCond st c ws).locks = st.locks := rfl

@[simp] theorem setCond_ready (st : KState) (c : CondId) (ws : List CWaiter) :
    (setCond st c ws).ready_list = st.ready_list := rfl

@[simp] theorem setCond_current (st : KState) (c : CondId) (ws : List CWaiter) :
    (setCond st c ws).current = st.current := rfl

@[simp] theorem setCond_yield_log (st : KState) (c : CondId) (ws : List CWaiter) :
    (setCond st c ws).yield_log = st.yield_log := rfl

@[simp] theorem setCond_apply (st : KState) (c : CondId) (ws : List CWaiter) (c0 : CondId) :
    (setCond st c ws).conds c0 = if c0 = c then ws else st.conds c0 :=
  Function.update_apply st.conds c ws c0

@[simp] theorem priority_yield_threads (st : KState) :
    (priority_yield st).threads = st.threads := rfl

@[simp] theorem priority_yield_semas (st : KState) :
    (priority_yield st).semas = st.semas := rfl

@[simp] theorem priority_yield_locks (st : KState) :
    (priority_yield st).locks = st.locks := rfl

@[simp] theorem priority_yield_conds (st : KState) :
    (priority_yield st).conds = st.conds := rfl

@[simp] theorem priority_yield_ready (st : KState) :
    (priority_yield st).ready_list = st.ready_list := rfl

@[simp] theorem priority_yield_current (st : KState) :
    (priority_yield st).current = st.current := rfl

@[simp] theorem priority_yield_yield_log (st : KState) :
    (priority_yield st).yield_log = st.yield_log ++ [would_yield st] := rfl

theorem priority_higher_eq (st : KState) :
    priority_higher st = fun a b => ((tprio st a > tprio st b : Prop) : Bool) := rfl

theorem tprio_setThread (st : KState) (t : Tid) (th : Thread)
    (hp : th.priority = (st.threads t).priority) :
    tprio (setThread st t th) = tprio st := by
  funext w
  by_cases h : w = t <;> simp [tprio, h, hp]

@[simp] theorem tprio_set_wait_semaphore (st : KState) (t : Tid) (os : Option SemId) :
    tprio (setThread st t { st.threads t with wait_semaphore := os }) = tprio st :=
  tprio_setThread st t _ rfl

@[simp] theorem tprio_set_status (st : KState) (t : Tid) (stat : TStatus) :
    tprio (setThread st t { st.threads t with status := stat }) = tprio st :=
  tprio_setThread st t _ rfl

@[simp] theorem tprio_set_wait_lock (st : KState) (t : Tid) (ol : Option LockId) :
    tprio (setThread st t { st.threads t with wait_lock := ol }) = tprio st :=
  tprio_setThread st t _ rfl

@[simp] theorem tprio_set_locks (st : KState) (t : Tid) (ls : List LockId) :
    tprio (setThread st t { st.threads t with locks := ls }) = tprio st :=
  tprio_setThread st t _ rfl

@[simp] theorem tprio_setSema (st : KState) (s : SemId) (sm : Semaphore) :
    tprio (setSema st s sm) = tprio st := rfl

@[simp] theorem tprio_setLock (st : KState) (l : LockId) (lk : Lock) :
    tprio (setLock st l lk) = tprio st := rfl

@[simp] theorem tprio_setCond (st : KState) (c : CondId) (ws : List CWaiter) :
    tprio (setCond st c ws) = tprio st := rfl

@[simp] theorem tprio_priority_yield (st : KState) :
    tprio (priority_yield st) = tprio st := rfl

@[simp] theorem tprio_set_ready_list (st : KState) (l : List Tid) :
    tprio { st with ready_list := l } = tprio st := rfl

@[simp] theorem tprio_set_yield_log (st : KState) (l : List Bool) :
    tprio { st with yield_log := l } = tprio st := rfl

theorem tprio_thread_block (st : KState) :
    tprio (thread_block st) = tprio st :=
  tprio_set_status st st.current TStatus.blocked

theorem tprio_thread_unblock (st : KState) (t : Tid) :
    tprio (thread_unblock st t) = tprio st :=
  tprio_set_status st t TStatus.ready

theorem thread_block_semas (st : KState) :
    (thread_block st).semas = st.semas := rfl

theorem thread_unblock_semas (st : KState) (t : Tid) :
    (thread_unblock st t).semas = st.semas := rfl

theorem thread_block_locks (st : KState) :
    (thread_block st).locks = st.locks := rfl

theorem thread_unblock_locks (st : KState) (t : Tid) :
    (thread_unblock st t).locks = st.locks := rfl

theorem thread_block_conds (st : KState) :
    (thread_block st).conds = st.conds := rfl

theorem thread_unblock_conds (st : KState) (t : Tid) :
    (thread_unblock st t).conds = st.conds := rfl

theorem thread_block_current (st : KState) :
    (thread_block st).current = st.current := rfl

theorem thread_unblock_current (st : KState) (t : Tid) :
    (thread_unblock st t).current = st.current := rfl

theorem thread_block_yield_log (st : KState) :
    (thread_block st).yield_log = st.yield_log := rfl

theorem thread_unblock_yield_log (st : KState) (t : Tid) :
    (thread_unblock st t).yield_log = st.yield_log := rfl

@[simp] theorem thread_unblock_threads_apply (st : KState) (t w : Tid) :
    (thread_unblock st t).threads w
      = if w = t then { st.threads t with status := TStatus.ready }
        else st.threads w := by
  unfold thread_unblock
  simp

theorem thread_unblock_ready (st : KState) (t : Tid) :
    (thread_unblock st t).ready_list
      = list_insert_ordered
          (priority_higher (setThread st t { st.threads t with status := TStatus.ready }))
          t st.ready_list := rfl

@[simp] theorem thread_block_threads_apply (st : KState) (w : Tid) :
    (thread_block st).threads w
      = if w = st.current then { st.threads st.current with status := TStatus.blocked }
        else st.threads w := by
  unfold thread_block
  simp

@[simp] theorem DownRes_state_completed (st : KState) :
    (DownRes.completed st).state = st := rfl

@[simp] theorem DownRes_state_blocked (st : KState) :
    (DownRes.blocked st).state = st := rfl

@[simp] theorem AcqRes_state_completed (st : KState) :
    (AcqRes.completed st).state = st := rfl

@[simp] theorem AcqRes_state_blocked (st : KState) :
    (AcqRes.blocked st).state = st := rfl

theorem insert_ordered_perm (less : α → α → Bool) (x : α) (xs : List α) :
    (list_insert_ordered less x xs).Perm (x :: xs) := by
  induction xs with
  | nil => simp [list_insert_ordered]
  | cons y ys ih =>
    simp only [list_insert_ordered]
    split
    · exact List.Perm.refl _
    · exact List.Perm.trans (List.Perm.cons y ih) (List.Perm.swap x y ys)

theorem mem_insert_ordered (less : α → α → Bool) (x z : α) (xs : List α) :
    z ∈ list_insert_ordered less x xs ↔ z = x ∨ z ∈ xs := by
  rw [(insert_ordered_perm less x xs).mem_iff]
  simp

/-- Inserting with the strictly-greater comparator keeps the key list
sorted in descending order. -/
theorem insert_ordered_sorted (f : α → Int) (x : α) (xs : List α)
    (h : (xs.map f).Pairwise (· ≥ ·)) :
    ((list_insert_ordered (fun a b => f a > f b) x xs).map f).Pairwise (· ≥ ·) := by
  induction xs with
  | nil => simp [list_insert_ordered]
  | cons y ys ih =>
    simp only [List.map_cons, List.pairwise_cons] at h
    simp only [list_insert_ordered]
    by_cases hxy : f x > f y
    · rw [if_pos (by simpa using hxy)]
      simp only [List.map_cons, List.pairwise_cons]
      refine ⟨?_, h⟩
      intro b hb
      rcases List.mem_cons.mp hb with rfl | hb2
      · exact le_of_lt hxy
      · rcases List.mem_map.mp hb2 with ⟨z, hz, rfl⟩
        exact le_trans (h.1 (f z) (List.mem_map_of_mem f hz)) (le_of_lt hxy)
    · rw [if_neg (by simpa using hxy)]
      simp only [List.map_cons, List.pairwise_cons]
      refine ⟨?_, ih h.2⟩
      intro b hb
      rcases List.mem_map.mp hb with ⟨z, hz, rfl⟩
      rcases (mem_insert_ordered _ x z ys).mp hz with rfl | hz2
      · exact le_of_not_lt hxy
      · exact h.1 (f z) (List.mem_map_of_mem f hz2)

/-- FIFO characterization: the new element lands immediately after every
element not strictly below it, i.e. after its equal-priority peers. -/
theorem insert_ordered_fifo (less : α → α → Bool) (x : α) (xs : List α) :
    list_insert_ordered less x xs
      = xs.takeWhile (fun y => !(less x y)) ++ x :: xs.dropWhile (fun y => !(less x y)) := by
  induction xs with
  | nil => simp [list_insert_ordered]
  | cons y ys ih =>
    simp only [list_insert_ordered, List.takeWhile, List.dropWhile]
    cases hxy : less x y with
    | true => simp
    | false => simp [ih]

/-- The head of an ordered insertion has a key at least the inserted
one's. -/
theorem insert_ordered_head_ge (f : α → Int) (x : α) (xs : List α) :
    ∃ h0 t0, list_insert_ordered (fun a b => f a > f b) x xs = h0 :: t0 ∧ f x ≤ f h0 := by
  cases xs with
  | nil => exact ⟨x, [], rfl, le_refl _⟩
  | cons y ys =>
    by_cases hxy : f x > f y
    · exact ⟨x, y :: ys, by simp [list_insert_ordered, hxy], le_refl _⟩
    · exact ⟨y, list_insert_ordered (fun a b => f a > f b) x ys,
        by simp [list_insert_ordered, hxy], le_of_not_lt hxy⟩

/-! ### C3: the depth bound -/

/-- C3: `donate_nested` returns immediately once its depth parameter
reaches the bound 8, and from any starting depth `num ≤ 8` (every call
in the source starts at 0) it performs at most `8 - num` donation steps,
on any state — including states whose `wait_lock` chain is cyclic. -/
theorem donate_nested_depth_bound (st : KState) (a : Tid) (ol : Option LockId)
    (num : Nat) (hnum : num ≤ 8) :
    donate_nested st a ol 8 = st ∧ donate_steps st a ol num ≤ 8 - num :=
  ⟨donate_nested_at_8 st a ol, donate_steps_fuel_le _ st a ol num hnum⟩

/-- Witness for C3 on the concrete donation chain (the chain is long
enough that the bound is what stops the recursion). -/
theorem donate_nested_depth_bound_witness :
    donate_nested exChain 0 (some 0) 8 = exChain
      ∧ donate_steps exChain 0 (some 0) 0 ≤ 8 - 0 :=
  donate_nested_depth_bound exChain 0 (some 0) 0 (by decide)

/-! ### C10: assertion contract of acquire / try_acquire / release -/

/-- C10: acquiring a lock already held by the caller is rejected by the
assertion in `lock_acquire` and `lock_try_acquire`, and releasing a lock
the caller does not hold is rejected by the assertion in `lock_release`;
each violation halts the operation (modelled as `Except.error`) instead
of being handled. -/
theorem lock_assertion_contract (st : KState) (l : LockId) :
    ((st.locks l).holder = some st.current → lock_acquire st l = Except.error ())
    ∧ ((st.locks l).holder = some st.current → lock_try_acquire st l = Except.error ())
    ∧ ((st.locks l).holder ≠ some st.current → lock_release st l = Except.error ()) := by
  refine ⟨fun h => ?_, fun h => ?_, fun h => ?_⟩
  · simp [lock_acquire, lock_held_by_current_thread, h]
  · simp [lock_try_acquire, lock_held_by_current_thread, h]
  · simp [lock_release, lock_held_by_current_thread, h]

/-- Witness for C10: thread 0 holds lock 0 in `exHeld` (re-acquisition
is fatal there); nobody holds lock 0 in `exFree` (release is fatal
there). -/
theorem lock_assertion_contract_witness :
    lock_acquire exHeld 0 = Except.error ()
    ∧ lock_try_acquire exHeld 0 = Except.error ()
    ∧ lock_release exFree 0 = Except.error () :=
  ⟨(lock_assertion_contract exHeld 0).1 (by decide),
   (lock_assertion_contract exHeld 0).2.1 (by decide),
   (lock_assertion_contract exFree 0).2.2 (by decide)⟩

/-! ### C5: the value/waiters invariant of semaphores -/

/-- C5 counterexample: starting from a semaphore initialized to 0, let
thread 0 block, then thread 1 block, then one `up` run: the `up` pops
thread 0, unblocks it, and increments the value, reaching a state with
`value = 1` while thread 1 is still in the waiter list — the claimed
invariant `value > 0 → waiters empty` is false at this reachable state
(the woken thread 0 has not yet resumed its `sema_down` loop and
decremented). -/
theorem sema_pos_value_waiters_cex :
    SemReach (fun _ => (0 : Int)) (semInitSt 0)
        { value := 1, waiters := [1], pending := [0] }
      ∧ 0 < (1 : Nat) ∧ ([1] : List Tid) ≠ [] := by
  refine ⟨?_, Nat.zero_lt_one, by simp⟩
  have s1 : SemStep (fun _ => (0 : Int)) (semInitSt 0)
      { value := 0, waiters := [0], pending := [] } :=
    SemStep.down_block _ 0 rfl (by simp [semInitSt]) (by simp [semInitSt])
  have s2 : SemStep (fun _ => (0 : Int))
      { value := 0, waiters := [0], pending := [] }
      { value := 0, waiters := [0, 1], pending := [] } :=
    SemStep.down_block _ 1 rfl (by simp) (by simp)
  have s3 : SemStep (fun _ => (0 : Int))
      { value := 0, waiters := [0, 1], pending := [] }
      { value := 1, waiters := [1], pending := [0] } :=
    SemStep.up_wake _ 0 [1] rfl
  exact Relation.ReflTransGen.head s1 (Relation.ReflTransGen.head s2
    (Relation.ReflTransGen.single s3))

/-- One semaphore step preserves the bound `waiters ≠ [] → value ≤
number of pending wakeups`. -/
theorem semStep_value_bound (pr : Tid → Int) {s s' : SemSt} (hstep : SemStep pr s s')
    (ih : s.waiters ≠ [] → s.value ≤ s.pending.length) :
    s'.waiters ≠ [] → s'.value ≤ s'.pending.length := by
  cases hstep with
  | down_fast hv =>
    intro hw
    have := ih hw
    simp only
    omega
  | down_block t hv _ _ =>
    intro _
    simp only [hv]
    exact Nat.zero_le _
  | resume_take t hv hmem =>
    intro hw
    have hlen : (s.pending.erase t).length = s.pending.length - 1 :=
      List.length_erase_of_mem hmem
    have hpos : 0 < s.pending.length := List.length_pos.mpr
      (List.ne_nil_of_mem hmem)
    have := ih hw
    simp only [hlen]
    omega
  | resume_reblock t hv hmem =>
    intro _
    simp only [hv]
    exact Nat.zero_le _
  | up_wake w rest hw =>
    intro hrest
    have := ih (by simp [hw])
    simp only [List.length_append, List.length_cons, List.length_nil]
    omega
  | up_empty hw =>
    intro hw2
    exact absurd hw hw2
  | try_down hv =>
    intro hw
    have := ih hw
    simp only
    omega

/-- C5 amended: in every reachable semaphore state, whenever the waiter
list is non-empty the value is at most the number of woken-but-not-yet-
resumed waiters; in particular `value > 0` implies the waiter list is
empty whenever no woken waiter is still pending (once every woken thread
has re-run its `sema_down` loop). -/
theorem sema_pos_value_waiters_inv (pr : Tid → Int) (v : Nat) (s : SemSt)
    (hreach : SemReach pr (semInitSt v) s) :
    (s.waiters ≠ [] → s.value ≤ s.pending.length)
    ∧ (s.pending = [] → 0 < s.value → s.waiters = []) := by
  have main : s.waiters ≠ [] → s.value ≤ s.pending.length := by
    induction hreach with
    | refl => intro h; exact absurd rfl h
    | tail _ hstep ih => exact semStep_value_bound pr hstep ih
  refine ⟨main, fun hp hv => ?_⟩
  by_contra hw
  have := main hw
  rw [hp] at this
  simp at this
  omega

/-- Witness for C5's amended invariant at the freshly initialized
semaphore of value 1. -/
theorem sema_pos_value_waiters_inv_witness :
    ((semInitSt 1).waiters ≠ [] → (semInitSt 1).value ≤ (semInitSt 1).pending.length)
    ∧ ((semInitSt 1).pending = [] → 0 < (semInitSt 1).value → (semInitSt 1).waiters = []) :=
  sema_pos_value_waiters_inv (fun _ => (0 : Int)) 1 (semInitSt 1)
    Relation.ReflTransGen.refl

/-! ### C6: wait lists stay sorted by current priority -/

/-- C6: wait-list ordering.  (1) `sema_down`'s insertion keeps every
semaphore's waiter list sorted by current priority, descending;
(2) `sema_up` keeps it sorted; (3) after a queued thread's priority
changes, `update_wait_list_when_thread_priority_changes` re-establishes
the order of the list it sits in (from the rest of the list being
sorted); (4) the same operation leaves every other wait list untouched;
(5) FIFO among equal priorities: an ordered insertion lands immediately
after every queued entry whose priority is not strictly below the new
one's. -/
theorem wait_list_priority_order (st : KState) (s s0 : SemId) (t : Tid) (ws : List Tid) :
    (SemSorted st s0 → SemSorted (sema_down_step st s).state s0)
    ∧ (SemSorted st s0 → SemSorted (sema_up st s) s0)
    ∧ ((((st.semas s).waiters.erase t).map (tprio st)).Pairwise (· ≥ ·) →
        SemSorted (update_wait_list_when_thread_priority_changes st t s) s)
    ∧ (s0 ≠ s → SemSorted st s0 →
        SemSorted (update_wait_list_when_thread_priority_changes st t s) s0)
    ∧ list_insert_ordered (priority_higher st) t ws
        = ws.takeWhile (fun y => !(priority_higher st t y))
            ++ t :: ws.dropWhile (fun y => !(priority_higher st t y)) := by
  refine ⟨?_, ?_, ?_, ?_, insert_ordered_fifo _ t ws⟩
  · intro h
    unfold sema_down_step
    split
    next hv =>
      simp only [DownRes.state, SemSorted] at h ⊢
      simp only [tprio_thread_block, tprio_set_wait_semaphore, tprio_setSema]
      simp only [thread_block_semas, setThread_semas, setSema_apply]
      by_cases hs : s0 = s
      · subst hs
        simp only [if_pos rfl]
        rw [priority_higher_eq]
        exact insert_ordered_sorted (tprio st) _ _ h
      · simp only [if_neg hs]
        exact h
    next hv =>
      simp only [DownRes.state, SemSorted] at h ⊢
      simp only [tprio_setSema, setSema_apply]
      by_cases hs : s0 = s
      · subst hs; simpa using h
      · simp only [if_neg hs]; exact h
  · intro h
    unfold sema_up
    cases hw : (st.semas s).waiters with
    | nil =>
      simp only [SemSorted] at h ⊢
      simp only [tprio_priority_yield, tprio_setSema]
      simp only [priority_yield_semas, setSema_apply]
      by_cases hs : s0 = s
      · subst hs; simpa using h
      · simp only [if_neg hs]; exact h
    | cons w rest =>
      simp only [SemSorted] at h ⊢
      simp only [tprio_priority_yield, tprio_setSema, tprio_thread_unblock,
        tprio_set_wait_semaphore]
      simp only [priority_yield_semas, setSema_apply, thread_unblock_semas,
        setThread_semas]
      by_cases hs : s0 = s
      · subst hs
        simp only [if_pos rfl]
        rw [hw] at h
        simpa using (List.pairwise_cons.mp (by simpa using h)).2
      · simp only [if_neg hs]
        exact h
  · intro hE
    unfold update_wait_list_when_thread_priority_changes
    simp only [SemSorted, setSema_apply, tprio_setSema, if_pos rfl]
    rw [priority_higher_eq]
    exact insert_ordered_sorted (tprio st) _ _ (by simpa using hE)
  · intro hne h
    unfold update_wait_list_when_thread_priority_changes
    simp only [SemSorted, setSema_apply, tprio_setSema, if_neg hne] at h ⊢
    exact h

/-- Witness for C6 at a concrete state (empty and singleton lists). -/
theorem wait_list_priority_order_witness :
    SemSorted (sema_down_step exHeld 0).state 0
    ∧ SemSorted (sema_up exHeld 0) 0
    ∧ SemSorted (update_wait_list_when_thread_priority_changes exHeld 1 0) 0
    ∧ SemSorted (update_wait_list_when_thread_priority_changes exHeld 1 0) 1
    ∧ list_insert_ordered (priority_higher exHeld) 1 [0]
        = List.takeWhile (fun y => !(priority_higher exHeld 1 y)) [0]
            ++ 1 :: List.dropWhile (fun y => !(priority_higher exHeld 1 y)) [0] := by
  have h := wait_list_priority_order exHeld 0 0 1 [0]
  have h2 := wait_list_priority_order exHeld 0 1 1 [0]
  exact ⟨h.1 (by simp [SemSorted, exHeld]), h.2.1 (by simp [SemSorted, exHeld]),
    h.2.2.1 (by simp [exHeld]), h2.2.2.2.1 (by decide) (by simp [SemSorted, exHeld]),
    h.2.2.2.2⟩

/-! ### maxList and list_max lemmas (for the release recomputation) -/

theorem maxList_nil : maxList [] = -1 := rfl

theorem maxList_cons (x : Int) (xs : List Int) :
    maxList (x :: xs) = max x (maxList xs) := rfl

theorem neg_one_le_maxList (xs : List Int) : -1 ≤ maxList xs := by
  induction xs with
  | nil => exact le_refl _
  | cons x xs ih => exact le_trans ih (by rw [maxList_cons]; exact le_max_right x _)

theorem maxList_le (xs : List Int) (b : Int) (h : ∀ x ∈ xs, x ≤ b) (hb : -1 ≤ b) :
    maxList xs ≤ b := by
  induction xs with
  | nil => exact hb
  | cons x xs ih =>
    rw [maxList_cons]
    exact max_le (h x (List.mem_cons_self x xs)) (ih fun y hy => h y (List.mem_cons_of_mem x hy))

theorem maxList_append (xs ys : List Int) :
    maxList (xs ++ ys) = max (maxList xs) (maxList ys) := by
  induction xs with
  | nil => simp [maxList_nil]; exact neg_one_le_maxList ys
  | cons x xs ih => simp only [List.cons_append, maxList_cons, ih, max_assoc]

theorem maxList_sorted_head (p : Int) (ps : List Int)
    (hsort : (p :: ps).Pairwise (· ≥ ·)) (hp : -1 ≤ p) :
    maxList (p :: ps) = p := by
  rw [maxList_cons]
  refine max_eq_left (maxList_le ps p ?_ hp)
  exact fun x hx => (List.pairwise_cons.mp hsort).1 x hx

theorem foldl_max_eq (g : α → Int) (xs : List α) (b : Int) (hb : -1 ≤ b) :
    xs.foldl (fun a x => max a (g x)) b = max b (maxList (xs.map g)) := by
  induction xs generalizing b with
  | nil => simp [maxList_nil]; exact hb
  | cons x xs ih =>
    simp only [List.foldl_cons, List.map_cons, maxList_cons]
    rw [ih (max b (g x)) (le_trans hb (le_max_left b (g x))), max_assoc]

theorem list_max_aux_foldl (f : α → Int) (m : α) (xs : List α) :
    f (list_max_aux (fun a b => f a < f b) m xs)
      = xs.foldl (fun acc x => max acc (f x)) (f m) := by
  induction xs generalizing m with
  | nil => simp [list_max_aux]
  | cons x xs ih =>
    simp only [list_max_aux, List.foldl_cons]
    rw [ih]
    congr 1
    by_cases h : f m < f x
    · simp [h]
      exact le_of_lt h
    · simp [h]
      exact le_of_not_lt h

theorem maxList_map_maxList (wp : β → List Int) (ls : List β) :
    maxList (ls.map fun lk => maxList (wp lk)) = maxList ((ls.map wp).flatten) := by
  induction ls with
  | nil => rfl
  | cons l ls ih =>
    simp only [List.map_cons, maxList_cons, List.flatten_cons]
    rw [maxList_append, ih]

theorem lock_priority_lower_eq (st : KState) :
    (fun a b => lock_priority_lower st a b)
      = fun a b => ((max_waiter_priority st a < max_waiter_priority st b : Prop) : Bool) :=
  rfl

theorem neg_one_le_max_waiter (st : KState) (lk : LockId)
    (hpos : ∀ x ∈ waiterPrios st lk, 0 ≤ x) :
    -1 ≤ max_waiter_priority st lk := by
  unfold max_waiter_priority
  cases hws : (st.semas (st.locks lk).semaId).waiters with
  | nil => exact le_refl _
  | cons w ws =>
    have : (0 : Int) ≤ tprio st w := by
      refine hpos _ ?_
      unfold waiterPrios
      rw [hws]
      exact List.mem_map_of_mem _ (List.mem_cons_self w ws)
    exact le_trans (by norm_num) this

theorem max_waiter_priority_eq_maxList (st : KState) (lk : LockId)
    (hsort : (waiterPrios st lk).Pairwise (· ≥ ·))
    (hpos : ∀ x ∈ waiterPrios st lk, 0 ≤ x) :
    max_waiter_priority st lk = maxList (waiterPrios st lk) := by
  unfold max_waiter_priority
  unfold waiterPrios at hsort hpos ⊢
  cases hws : (st.semas (st.locks lk).semaId).waiters with
  | nil => simp [maxList_nil]
  | cons w ws =>
    rw [hws] at hsort hpos
    simp only [List.map_cons] at hsort hpos ⊢
    have hp : -1 ≤ tprio st w :=
      le_trans (by norm_num)
        (hpos (tprio st w) (List.mem_cons_self _ _))
    exact (maxList_sorted_head (tprio st w) _ hsort hp).symm

/-- Refinement: the value the release code computes through `list_max` of
`lock_priority_lower` plus `max_waiter_priority` (the front waiter) equals
the spec's "highest priority of any waiter blocked on any of these
locks", provided each waiter list is priority-sorted and priorities are
nonnegative. -/
theorem code_max_eq_spec (st : KState) (l0 : LockId) (rest : List LockId)
    (hsort : ∀ lk ∈ l0 :: rest, (waiterPrios st lk).Pairwise (· ≥ ·))
    (hpos : ∀ lk ∈ l0 :: rest, ∀ x ∈ waiterPrios st lk, 0 ≤ x) :
    max_waiter_priority st (list_max_aux (fun a b => lock_priority_lower st a b) l0 rest)
      = spec_max_waiter_priority st (l0 :: rest) := by
  rw [lock_priority_lower_eq]
  rw [list_max_aux_foldl (max_waiter_priority st) l0 rest]
  rw [foldl_max_eq (max_waiter_priority st) rest (max_waiter_priority st l0)
    (neg_one_le_max_waiter st l0 (hpos l0 (List.mem_cons_self l0 rest)))]
  have hmap : rest.map (max_waiter_priority st)
      = rest.map (fun lk => maxList (waiterPrios st lk)) :=
    List.map_congr_left fun lk hlk =>
      max_waiter_priority_eq_maxList st lk
        (hsort lk (List.mem_cons_of_mem l0 hlk))
        (hpos lk (List.mem_cons_of_mem l0 hlk))
  rw [hmap,
    max_waiter_priority_eq_maxList st l0 (hsort l0 (List.mem_cons_self l0 rest))
      (hpos l0 (List.mem_cons_self l0 rest))]
  rw [← maxList_cons]
  rw [show (maxList (waiterPrios st l0) :: rest.map fun lk => maxList (waiterPrios st lk))
      = (l0 :: rest).map fun lk => maxList (waiterPrios st lk) from rfl]
  rw [maxList_map_maxList (waiterPrios st) (l0 :: rest)]
  rfl

/-! ### C7: behavior of sema_up -/

/-- The preemption check records its decision, and decides to yield
whenever the head of the ready list outranks the running thread. -/
theorem priority_yield_spec (st : KState) :
    (priority_yield st).yield_log = st.yield_log ++ [would_yield st]
    ∧ (∀ t rest2, st.ready_list = t :: rest2 →
        (st.threads st.current).priority < (st.threads t).priority →
        would_yield st = true) := by
  refine ⟨rfl, fun t rest2 hr hlt => ?_⟩
  simp [would_yield, hr]
  exact hlt

/-- C7: `sema_up` with a non-empty waiter list removes the head waiter
(which, when the list is sorted, has the highest priority), clears its
`wait_semaphore`, marks it ready and inserts it into the ready list;
the value is always incremented by exactly one; and the cooperative
preemption check then decides to yield whenever the newly-runnable
thread outranks the caller.  With an empty waiter list only the value
changes (plus the logged preemption check). -/
theorem sema_up_behavior (st : KState) (s : SemId) :
    (∀ w rest, (st.semas s).waiters = w :: rest →
      ((sema_up st s).semas s).waiters = rest
      ∧ ((sema_up st s).threads w).wait_semaphore = none
      ∧ ((sema_up st s).threads w).status = TStatus.ready
      ∧ w ∈ (sema_up st s).ready_list
      ∧ ((sema_up st s).semas s).value = (st.semas s).value + 1
      ∧ (SemSorted st s → ∀ x ∈ rest, tprio st x ≤ tprio st w)
      ∧ (∃ b : Bool, (sema_up st s).yield_log = st.yield_log ++ [b]
          ∧ (tprio st st.current < tprio st w → b = true)))
    ∧ ((st.semas s).waiters = [] →
      (sema_up st s).threads = st.threads
      ∧ ((sema_up st s).semas s).value = (st.semas s).value + 1
      ∧ ((sema_up st s).semas s).waiters = []
      ∧ (sema_up st s).ready_list = st.ready_list
      ∧ (∃ b : Bool, (sema_up st s).yield_log = st.yield_log ++ [b])) := by
  constructor
  · intro w rest hw
    unfold sema_up
    rw [hw]
    set sA := setSema st s { st.semas s with waiters := rest } with hA
    set sB := setThread sA w { sA.threads w with wait_semaphore := none } with hB
    set sC := thread_unblock sB w with hC
    set sD := setSema sC s { sC.semas s with value := (sC.semas s).value + 1 } with hD
    have htpB : tprio sB = tprio st := by
      rw [hB, tprio_set_wait_semaphore, hA, tprio_setSema]
    have htpC : tprio sC = tprio st := by
      rw [hC, tprio_thread_unblock, htpB]
    have htpD : tprio sD = tprio st := by
      rw [hD, tprio_setSema, htpC]
    have hcur : sD.current = st.current := by
      rw [hD, setSema_current, hC, thread_unblock_current, hB, setThread_current,
        hA, setSema_current]
    have hreadyB : sB.ready_list = st.ready_list := by
      rw [hB, setThread_ready, hA, setSema_ready]
    have hready : sD.ready_list
        = list_insert_ordered
            (priority_higher (setThread sB w { sB.threads w with status := TStatus.ready }))
            w st.ready_list := by
      rw [hD, setSema_ready, hC, thread_unblock_ready, hreadyB]
    refine ⟨?_, ?_, ?_, ?_, ?_, ?_, ?_⟩
    · simp [hD, hC, thread_unblock_semas, hB, hA]
    · simp [hD, hC, hB, hA]
    · simp [hD, hC, hB, hA]
    · rw [priority_yield_ready, hready]
      exact (mem_insert_ordered _ w w _).mpr (Or.inl rfl)
    · simp [hD, hC, thread_unblock_semas, hB, hA]
    · intro hsort x hx
      rw [SemSorted, hw] at hsort
      simp only [List.map_cons, List.pairwise_cons] at hsort
      exact hsort.1 (tprio st x) (List.mem_map_of_mem (tprio st) hx)
    · obtain ⟨h0, t0, heq, hge⟩ :=
        insert_ordered_head_ge
          (tprio (setThread sB w { sB.threads w with status := TStatus.ready })) w
          st.ready_list
      have hlist : sD.ready_list = h0 :: t0 := by
        rw [hready, priority_higher_eq]
        exact heq
      refine ⟨would_yield sD, ?_, ?_⟩
      · have hyl : sD.yield_log = st.yield_log := by
          rw [hD, setSema_yield_log, hC, thread_unblock_yield_log, hB,
            setThread_yield_log, hA, setSema_yield_log]
        rw [priority_yield_yield_log, hyl]
      · intro hlt
        have hge2 : tprio st w ≤ tprio st h0 := by
          rwa [tprio_set_status, htpB] at hge
        have hmain : (sD.threads sD.current).priority < (sD.threads h0).priority := by
          show tprio sD sD.current < tprio sD h0
          rw [htpD, hcur]
          exact lt_of_lt_of_le hlt hge2
        simp [would_yield, hlist]
        exact hmain
  · intro hw
    unfold sema_up
    rw [hw]
    refine ⟨rfl, ?_, ?_, rfl, ⟨would_yield _, rfl⟩⟩
    · simp
    · simp [hw]

/-- Witness for C7 at a concrete semaphore with one waiter. -/
theorem sema_up_behavior_witness :
    ((sema_up exUpState 0).semas 0).waiters = []
    ∧ ((sema_up exUpState 0).threads 1).wait_semaphore = none
    ∧ ((sema_up exUpState 0).threads 1).status = TStatus.ready
    ∧ 1 ∈ (sema_up exUpState 0).ready_list
    ∧ ((sema_up exUpState 0).semas 0).value = (exUpState.semas 0).value + 1 := by
  have h := (sema_up_behavior exUpState 0).1 1 [] rfl
  exact ⟨h.1, h.2.1, h.2.2.1, h.2.2.2.1, h.2.2.2.2.1⟩

/-! ### C2: priority recomputation on lock_release -/

theorem sema_up_priority (st : KState) (s : SemId) (t : Tid) :
    ((sema_up st s).threads t).priority = (st.threads t).priority := by
  unfold sema_up
  cases hw : (st.semas s).waiters with
  | nil => simp
  | cons w rest => by_cases h : t = w <;> simp [h]

theorem sema_up_original (st : KState) (s : SemId) (t : Tid) :
    ((sema_up st s).threads t).original_priority = (st.threads t).original_priority := by
  unfold sema_up
  cases hw : (st.semas s).waiters with
  | nil => simp
  | cons w rest => by_cases h : t = w <;> simp [h]

/-- Case analysis of `update_thread_priority` (synch.c lines 299-321). -/
theorem update_thread_priority_cases (st : KState) :
    ((st.threads st.current).original_priority = -1 → update_thread_priority st = st)
    ∧ ((st.threads st.current).original_priority ≠ -1 →
        ((st.threads st.current).locks = [] →
          update_thread_priority st
            = setThread st st.current
                { st.threads st.current with
                  priority := (st.threads st.current).original_priority,
                  original_priority := -1 })
        ∧ (∀ l0 rest, (st.threads st.current).locks = l0 :: rest →
            ((max_waiter_priority st
                (list_max_aux (fun a b => lock_priority_lower st a b) l0 rest)
                > (st.threads st.current).original_priority) →
              update_thread_priority st
                = setThread st st.current
                    { st.threads st.current with
                      priority := max_waiter_priority st
                        (list_max_aux (fun a b => lock_priority_lower st a b) l0 rest) })
            ∧ ((max_waiter_priority st
                (list_max_aux (fun a b => lock_priority_lower st a b) l0 rest)
                ≤ (st.threads st.current).original_priority) →
              update_thread_priority st
                = setThread st st.current
                    { st.threads st.current with
                      priority := (st.threads st.current).original_priority,
                      original_priority := -1 }))) := by
  refine ⟨fun h => ?_, fun h => ⟨fun hE => ?_, fun l0 rest hE => ⟨fun hlt => ?_, fun hge => ?_⟩⟩⟩
  · unfold update_thread_priority
    rw [if_pos h]
  · unfold update_thread_priority
    rw [if_neg h, hE]
  · unfold update_thread_priority
    rw [if_neg h, hE]
    dsimp only
    rw [if_pos hlt]
  · unfold update_thread_priority
    rw [if_neg h, hE]
    dsimp only
    rw [if_neg (not_lt.mpr hge)]

/-- C2: when a thread releases a lock, its priority is recomputed as the
spec describes: nothing changes when no donation is active
(`original_priority = -1`); with no remaining held lock the base is
restored and cleared; otherwise, with m the highest priority of any
waiter blocked on any still-held lock, the priority becomes m when
m exceeds the base (base stays recorded), else the base is restored and
cleared.  Hypotheses: each still-held lock's waiter list is sorted by
current priority and priorities are nonnegative (the scheduler's
invariants). -/
theorem lock_release_priority_recompute (st st' : KState) (l : LockId)
    (hheld : (st.locks l).holder = some st.current)
    (hok : lock_release st l = Except.ok st')
    (hsort : ∀ lk ∈ ((st.threads st.current).locks).erase l,
        (waiterPrios st lk).Pairwise (· ≥ ·))
    (hpos : ∀ lk ∈ ((st.threads st.current).locks).erase l,
        ∀ x ∈ waiterPrios st lk, 0 ≤ x) :
    ((st.threads st.current).original_priority = -1 →
        (st'.threads st.current).priority = (st.threads st.current).priority
        ∧ (st'.threads st.current).original_priority = -1)
    ∧ ((st.threads st.current).original_priority ≠ -1 →
        (((st.threads st.current).locks).erase l = [] →
            (st'.threads st.current).priority = (st.threads st.current).original_priority
            ∧ (st'.threads st.current).original_priority = -1)
        ∧ (∀ l0 rest, ((st.threads st.current).locks).erase l = l0 :: rest →
            ((st.threads st.current).original_priority
                < spec_max_waiter_priority st (l0 :: rest) →
              (st'.threads st.current).priority = spec_max_waiter_priority st (l0 :: rest)
              ∧ (st'.threads st.current).original_priority
                  = (st.threads st.current).original_priority)
            ∧ (spec_max_waiter_priority st (l0 :: rest)
                ≤ (st.threads st.current).original_priority →
              (st'.threads st.current).priority = (st.threads st.current).original_priority
              ∧ (st'.threads st.current).original_priority = -1))) := by
  have hlh : lock_held_by_current_thread st l = true := by
    simp [lock_held_by_current_thread, hheld]
  unfold lock_release at hok
  rw [if_pos hlh] at hok
  injection hok with hok
  subst hok
  set st1 := setThread st st.current
    { st.threads st.current with locks := (st.threads st.current).locks.erase l } with h1
  set st2 := setLock st1 l { st1.locks l with holder := none } with h2
  have hcur1 : st1.current = st.current := by rw [h1]; simp
  have hcur2 : st2.current = st.current := by rw [h2]; simp [hcur1]
  have hth2 : st2.threads st.current
      = { st.threads st.current with locks := (st.threads st.current).locks.erase l } := by
    rw [h2, setLock_threads, h1]
    simp
  have horig2 : (st2.threads st2.current).original_priority
      = (st.threads st.current).original_priority := by rw [hcur2, hth2]
  have hlocks2 : (st2.threads st2.current).locks
      = ((st.threads st.current).locks).erase l := by rw [hcur2, hth2]
  have hprio2 : (st2.threads st2.current).priority
      = (st.threads st.current).priority := by rw [hcur2, hth2]
  have happ : ∀ R : Thread, (setThread st2 st2.current R).threads st.current = R := by
    intro R
    rw [hcur2]
    simp
  have hwp : ∀ lk, waiterPrios st2 lk = waiterPrios st lk := by
    intro lk
    have htp : tprio st2 = tprio st := by rw [h2, tprio_setLock, h1, tprio_set_locks]
    have hsem : st2.semas = st.semas := by rw [h2]; simp [h1]
    have hsid : (st2.locks lk).semaId = (st.locks lk).semaId := by
      rw [h2]
      by_cases hlk : lk = l
      · simp [hlk, h1]
      · simp [hlk, h1]
    unfold waiterPrios
    rw [htp, hsem, hsid]
  have hspec : ∀ ls : List LockId,
      spec_max_waiter_priority st2 ls = spec_max_waiter_priority st ls := by
    intro ls
    unfold spec_max_waiter_priority
    rw [List.map_congr_left fun lk _ => hwp lk]
  refine ⟨fun horig => ?_, fun horig => ⟨fun hE => ?_, fun l0 rest hE => ?_⟩⟩
  · have h0 : (st2.threads st2.current).original_priority = -1 := by rw [horig2, horig]
    have hupd : update_thread_priority st2 = st2 := (update_thread_priority_cases st2).1 h0
    rw [hupd]
    constructor
    · rw [sema_up_priority, hth2]
    · rw [sema_up_original, hth2]
      exact horig
  · have h0 : (st2.threads st2.current).original_priority ≠ -1 := by rw [horig2]; exact horig
    have hL : (st2.threads st2.current).locks = [] := by rw [hlocks2]; exact hE
    have hupd := ((update_thread_priority_cases st2).2 h0).1 hL
    rw [hupd]
    constructor
    · rw [sema_up_priority, happ]
      exact horig2
    · rw [sema_up_original, happ]
  · have h0 : (st2.threads st2.current).original_priority ≠ -1 := by rw [horig2]; exact horig
    have hL : (st2.threads st2.current).locks = l0 :: rest := by rw [hlocks2]; exact hE
    have hsort2 : ∀ lk ∈ l0 :: rest, (waiterPrios st2 lk).Pairwise (· ≥ ·) := by
      intro lk hlk
      rw [hwp lk]
      exact hsort lk (hE ▸ hlk)
    have hpos2 : ∀ lk ∈ l0 :: rest, ∀ x ∈ waiterPrios st2 lk, 0 ≤ x := by
      intro lk hlk
      rw [hwp lk]
      exact hpos lk (hE ▸ hlk)
    have hmEq : max_waiter_priority st2
        (list_max_aux (fun a b => lock_priority_lower st2 a b) l0 rest)
        = spec_max_waiter_priority st (l0 :: rest) :=
      (code_max_eq_spec st2 l0 rest hsort2 hpos2).trans (hspec (l0 :: rest))
    constructor
    · intro hlt
      have hcond : max_waiter_priority st2
          (list_max_aux (fun a b => lock_priority_lower st2 a b) l0 rest)
          > (st2.threads st2.current).original_priority := by
        rw [horig2, hmEq]
        exact hlt
      have hupd := (((update_thread_priority_cases st2).2 h0).2 l0 rest hL).1 hcond
      rw [hupd]
      constructor
      · rw [sema_up_priority, happ]
        exact hmEq
      · rw [sema_up_original, happ]
        exact horig2
    · intro hge
      have hcond : max_waiter_priority st2
          (list_max_aux (fun a b => lock_priority_lower st2 a b) l0 rest)
          ≤ (st2.threads st2.current).original_priority := by
        rw [horig2, hmEq]
        exact hge
      have hupd := (((update_thread_priority_cases st2).2 h0).2 l0 rest hL).2 hcond
      rw [hupd]
      constructor
      · rw [sema_up_priority, happ]
        exact horig2
      · rw [sema_up_original, happ]

/-- Witness for C2: releasing lock 0 in `exRelease` drops thread 0's
priority to 35 (the highest waiter priority on still-held lock 1, which
exceeds the base 20) and keeps the base recorded. -/
theorem lock_release_priority_recompute_witness :
    (exReleaseRes.threads 0).priority = spec_max_waiter_priority exRelease [1]
    ∧ (exReleaseRes.threads 0).original_priority = 20 := by
  have h := lock_release_priority_recompute exRelease exReleaseRes 0 (by decide) rfl
    (by decide) (by decide)
  have h2 := (h.2 (by decide)).2 1 [] (by decide)
  have h3 := h2.1 (by decide)
  exact ⟨h3.1, h3.2.trans (by decide)⟩

/-! ### C1: the nested donation step -/

theorem update_ready_list_threads (st : KState) (t : Tid) :
    (update_ready_list_when_thread_priority_changes st t).threads = st.threads := rfl

theorem update_wait_list_threads (st : KState) (t : Tid) (s : SemId) :
    (update_wait_list_when_thread_priority_changes st t s).threads = st.threads := rfl

theorem donate_st2_threads_other (st : KState) (a h t : Tid) (hnt : t ≠ h) :
    (donate_st2 st a h).threads t = st.threads t := by
  unfold donate_st2 donate_st1
  split <;> simp [hnt]

theorem donate_st2_priority_self (st : KState) (a h : Tid) :
    ((donate_st2 st a h).threads h).priority = (st.threads a).priority := by
  unfold donate_st2
  simp

theorem donate_st3_threads (st : KState) (a h : Tid) :
    (donate_st3 st a h).threads = (donate_st2 st a h).threads := by
  unfold donate_st3
  split
  · rw [update_wait_list_threads]
  · rfl

/-- Threads at least as eminent as the donor are never touched by
`donate_fuel` (donation only ever raises priorities that are strictly
below the donor's, and the donated value never exceeds the lead donor's
priority). -/
theorem donate_fuel_frozen (fuel : Nat) :
    ∀ st a ol num t, (st.threads a).priority ≤ (st.threads t).priority →
      (donate_fuel fuel st a ol num).threads t = st.threads t := by
  induction fuel with
  | zero => intro st a ol num t _; rfl
  | succ fuel ih =>
    intro st a ol num t hle
    unfold donate_fuel
    split
    · rfl
    next h8 =>
      cases ol with
      | none => rfl
      | some l =>
        simp only
        cases hh : (st.locks l).holder with
        | none => simp only [hh]
        | some hthr =>
          simp only [hh]
          split
          next hlt =>
            have hnt : t ≠ hthr := by
              intro he
              rw [he] at hle
              exact absurd (lt_of_lt_of_le hlt hle) (lt_irrefl _)
            split
            · rw [update_ready_list_threads, donate_st2_threads_other st a hthr t hnt]
            · rw [ih _ hthr _ (num + 1) t
                  (by rw [donate_st3_threads, donate_st2_threads_other st a hthr t hnt]
                      rw [show ((donate_st2 st a hthr).threads hthr).priority
                            = (st.threads a).priority from donate_st2_priority_self st a hthr]
                      exact hle)]
              rw [donate_st3_threads, donate_st2_threads_other st a hthr t hnt]
          next => rfl

/-- One-step unfolding of `donate_nested` below the depth bound. -/
theorem donate_nested_unfold (st : KState) (a : Tid) (l : LockId) (num : Nat)
    (hnum : num < 8) :
    donate_nested st a (some l) num
      = (match (st.locks l).holder with
         | none => st
         | some h =>
           if (st.threads h).priority < (st.threads a).priority then
             if ((donate_st2 st a h).threads h).status = TStatus.running then
               update_ready_list_when_thread_priority_changes (donate_st2 st a h) h
             else
               donate_fuel (8 - num) (donate_st3 st a h) h
                 (((donate_st3 st a h).threads h).wait_lock) (num + 1)
           else st) := by
  have hf : 9 - num = (8 - num) + 1 := by omega
  have h8 : num ≠ 8 := by omega
  rw [donate_nested, hf]
  simp only [donate_fuel]
  rw [if_neg h8]

/-- C1 amended: one step of `donate_nested` below the depth bound.  If
the lock has no holder, or the holder's priority is at least the
donor's, nothing changes.  Otherwise the holder's priority is raised to
the donor's (saving the pre-donation baseline when it was unset), and
then: if the holder is presently RUNNING (only that status — a READY
holder takes the other branch) it is reinserted into the ready list and
a preemption check is triggered; otherwise (READY or blocked), when its
`wait_semaphore` is set that wait list is re-sorted, and donation
recurses through the holder's `wait_lock` at depth `num + 1`. -/
theorem donate_nested_amended (st : KState) (a : Tid) (l : LockId) (num : Nat)
    (hnum : num < 8) :
    ((st.locks l).holder = none → donate_nested st a (some l) num = st)
    ∧ (∀ h, (st.locks l).holder = some h →
        ((st.threads a).priority ≤ (st.threads h).priority →
            donate_nested st a (some l) num = st)
        ∧ ((st.threads h).priority < (st.threads a).priority →
            (donate_nested st a (some l) num).threads h
              = { st.threads h with
                  priority := (st.threads a).priority,
                  original_priority :=
                    if (st.threads h).original_priority = -1 then (st.threads h).priority
                    else (st.threads h).original_priority }
            ∧ ((st.threads h).status = TStatus.running →
                donate_nested st a (some l) num
                  = update_ready_list_when_thread_priority_changes (donate_st2 st a h) h)
            ∧ ((st.threads h).status ≠ TStatus.running →
                donate_nested st a (some l) num
                  = donate_nested (donate_st3 st a h) h
                      ((st.threads h).wait_lock) (num + 1)))) := by
  have hstep := donate_nested_unfold st a l num hnum
  refine ⟨fun hnone => ?_, fun h hh => ⟨fun hge => ?_, fun hlt => ?_⟩⟩
  · rw [hstep, hnone]
  · rw [hstep, hh]
    dsimp only
    rw [if_neg (not_lt.mpr hge)]
  · have hth2 : (donate_st2 st a h).threads h
        = { st.threads h with
            priority := (st.threads a).priority,
            original_priority :=
              if (st.threads h).original_priority = -1 then (st.threads h).priority
              else (st.threads h).original_priority } := by
      by_cases horig : (st.threads h).original_priority = -1 <;>
        simp [donate_st2, donate_st1, horig]
    have hstat2 : ((donate_st2 st a h).threads h).status = (st.threads h).status := by
      rw [hth2]
    have hthr3 := donate_st3_threads st a h
    refine ⟨?_, fun hrun => ?_, fun hnrun => ?_⟩
    · by_cases hrun : (st.threads h).status = TStatus.running
      · rw [hstep, hh]
        dsimp only
        rw [if_pos hlt, if_pos (by rw [hstat2]; exact hrun)]
        rw [update_ready_list_threads]
        exact hth2
      · rw [hstep, hh]
        dsimp only
        rw [if_pos hlt, if_neg (by rw [hstat2]; exact hrun)]
        rw [donate_fuel_frozen (8 - num) _ h _ (num + 1) h (le_refl _)]
        rw [hthr3]
        exact hth2
    · rw [hstep, hh]
      dsimp only
      rw [if_pos hlt, if_pos (by rw [hstat2]; exact hrun)]
    · rw [hstep, hh]
      dsimp only
      rw [if_pos hlt, if_neg (by rw [hstat2]; exact hnrun)]
      have hwl : ((donate_st3 st a h).threads h).wait_lock = (st.threads h).wait_lock := by
        rw [hthr3, hth2]
      rw [hwl, donate_nested]
      have hf2 : 9 - (num + 1) = 8 - num := by omega
      rw [hf2]

/-- Witness for C1's amended step on the donation chain (blocked holder,
recursive branch). -/
theorem donate_nested_amended_witness :
    (donate_nested exChain 0 (some 0) 0).threads 1
      = { exChain.threads 1 with
          priority := (exChain.threads 0).priority,
          original_priority :=
            if (exChain.threads 1).original_priority = -1 then (exChain.threads 1).priority
            else (exChain.threads 1).original_priority }
    ∧ donate_nested exChain 0 (some 0) 0
        = donate_nested (donate_st3 exChain 0 1) 1 ((exChain.threads 1).wait_lock) 1 := by
  have h := ((donate_nested_amended exChain 0 0 0 (by decide)).2 1 (by decide)).2 (by decide)
  exact ⟨h.1, h.2.2 (by decide)⟩

/-- C1 counterexample: in `exReadyHolder` lock 0's holder (thread 1) is
READY at priority 10 and sits in the ready list behind the priority-20
thread 2; donor thread 0 has priority 30.  The claim requires a
running-or-ready holder to be reinserted into the ready list at the
position matching its new priority and a preemption check; the code
instead takes the blocked branch (synch.c lines 223-229): thread 1's
priority becomes 30, its `wait_semaphore` is NULL so no wait list is
re-sorted, and the recursion `donate_nested(thread 1, thread 1's stale
wait_lock = lock 0, 1)` stops because lock 0's holder is thread 1
itself, whose priority 30 is no longer below the donated value — every
step the C takes at this state.  The ready list is left as [2, 1] (the
priority-30 thread behind the priority-20 one) and no preemption check
is recorded. -/
theorem donate_ready_holder_cex :
    (exReadyHolder.locks 0).holder = some 1
    ∧ (exReadyHolder.threads 1).status = TStatus.ready
    ∧ (exReadyHolder.threads 1).priority < (exReadyHolder.threads 0).priority
    ∧ ((donate_nested exReadyHolder 0 (some 0) 0).threads 1).priority = 30
    ∧ ((donate_nested exReadyHolder 0 (some 0) 0).threads 2).priority = 20
    ∧ (donate_nested exReadyHolder 0 (some 0) 0).ready_list = [2, 1]
    ∧ (donate_nested exReadyHolder 0 (some 0) 0).yield_log = [] := by
  decide

/-! ### C4: the stale wait_lock reference -/

theorem update_wait_list_current (st : KState) (t : Tid) (s : SemId) :
    (update_wait_list_when_thread_priority_changes st t s).current = st.current := rfl

theorem update_ready_list_current (st : KState) (t : Tid) :
    (update_ready_list_when_thread_priority_changes st t).current = st.current := rfl

theorem donate_st2_wait_lock (st : KState) (a h t : Tid) :
    ((donate_st2 st a h).threads t).wait_lock = (st.threads t).wait_lock := by
  unfold donate_st2 donate_st1
  by_cases hnt : t = h
  · subst hnt
    split <;> simp
  · split <;> simp [hnt]

theorem donate_st2_current (st : KState) (a h : Tid) :
    (donate_st2 st a h).current = st.current := by
  unfold donate_st2 donate_st1
  split <;> simp

theorem donate_st3_current (st : KState) (a h : Tid) :
    (donate_st3 st a h).current = st.current := by
  unfold donate_st3
  split
  · rw [update_wait_list_current, donate_st2_current]
  · rw [donate_st2_current]

theorem donate_fuel_wait_lock (fuel : Nat) :
    ∀ st a ol num t,
      ((donate_fuel fuel st a ol num).threads t).wait_lock = (st.threads t).wait_lock := by
  induction fuel with
  | zero => intro st a ol num t; rfl
  | succ fuel ih =>
    intro st a ol num t
    unfold donate_fuel
    split
    · rfl
    next h8 =>
      cases ol with
      | none => rfl
      | some l =>
        simp only
        cases hh : (st.locks l).holder with
        | none => simp only [hh]
        | some hthr =>
          simp only [hh]
          split
          next hlt =>
            split
            · rw [update_ready_list_threads, donate_st2_wait_lock]
            · rw [ih, donate_st3_threads, donate_st2_wait_lock]
          next => rfl

theorem donate_fuel_current (fuel : Nat) :
    ∀ st a ol num, (donate_fuel fuel st a ol num).current = st.current := by
  induction fuel with
  | zero => intro st a ol num; rfl
  | succ fuel ih =>
    intro st a ol num
    unfold donate_fuel
    split
    · rfl
    next h8 =>
      cases ol with
      | none => rfl
      | some l =>
        simp only
        cases hh : (st.locks l).holder with
        | none => simp only [hh]
        | some hthr =>
          simp only [hh]
          split
          next hlt =>
            split
            · rw [update_ready_list_current, donate_st2_current]
            · rw [ih, donate_st3_current]
          next => rfl

theorem sema_up_wait_lock (st : KState) (s : SemId) (t : Tid) :
    ((sema_up st s).threads t).wait_lock = (st.threads t).wait_lock := by
  unfold sema_up
  cases hw : (st.semas s).waiters with
  | nil => simp
  | cons w rest => by_cases h : t = w <;> simp [h]

theorem sema_down_step_wait_lock (st : KState) (s : SemId) (t : Tid) :
    (((sema_down_step st s).state).threads t).wait_lock = (st.threads t).wait_lock := by
  unfold sema_down_step
  split
  · simp only [DownRes.state]
    by_cases h : t = st.current <;> simp [h]
  · simp [DownRes.state]

theorem sema_try_down_threads (st : KState) (s : SemId) :
    (sema_try_down st s).1.threads = st.threads := by
  unfold sema_try_down
  split <;> rfl

theorem update_thread_priority_wait_lock (st : KState) (t : Tid) :
    ((update_thread_priority st).threads t).wait_lock = (st.threads t).wait_lock := by
  unfold update_thread_priority
  by_cases h : t = st.current
  · subst h
    split
    · rfl
    · split <;> [simp; skip]
      split <;> simp
  · split
    · rfl
    · split <;> [simp [h]; skip]
      split <;> simp [h]

theorem lock_acquire_finish_wait_lock (st : KState) (l : LockId) (t : Tid) :
    ((lock_acquire_finish st l).threads t).wait_lock = (st.threads t).wait_lock := by
  unfold lock_acquire_finish
  by_cases h : t = st.current <;> simp [h]

theorem lock_release_wait_lock (st st2 : KState) (l : LockId) (t : Tid)
    (hok : lock_release st l = Except.ok st2) :
    (st2.threads t).wait_lock = (st.threads t).wait_lock := by
  unfold lock_release at hok
  split at hok
  · injection hok with hok
    subst hok
    rw [sema_up_wait_lock, update_thread_priority_wait_lock]
    by_cases h : t = st.current <;> simp [h]
  · exact absurd hok (by simp)

theorem cond_signal_wait_lock (st st2 : KState) (c : CondId) (l : LockId) (t : Tid)
    (hok : cond_signal st c l = Except.ok st2) :
    (st2.threads t).wait_lock = (st.threads t).wait_lock := by
  unfold cond_signal at hok
  split at hok
  · injection hok with hok
    subst hok
    cases hw : st.conds c with
    | nil => rfl
    | cons w rest =>
      show ((sema_up (setCond st c rest) w.semaId).threads t).wait_lock
          = (st.threads t).wait_lock
      rw [sema_up_wait_lock]
      rfl
  · exact absurd hok (by simp)

theorem cond_broadcast_fuel_wait_lock (fuel : Nat) :
    ∀ st st2 c l t, cond_broadcast_fuel fuel st c l = Except.ok st2 →
      (st2.threads t).wait_lock = (st.threads t).wait_lock := by
  induction fuel with
  | zero =>
    intro st st2 c l t hok
    injection hok with hok
    subst hok
    rfl
  | succ fuel ih =>
    intro st st2 c l t hok
    unfold cond_broadcast_fuel at hok
    split at hok
    · injection hok with hok
      subst hok
      rfl
    · split at hok
      · exact absurd hok (by simp)
      next st3 hsig =>
        rw [ih st3 st2 c l t hok, cond_signal_wait_lock st st3 c l t hsig]

/-- C4: `lock_acquire` records `wait_lock = lock` before blocking and the
module never clears it: every successful (or blocking) acquire leaves the
caller's `wait_lock` equal to the lock, and every other operation of the
module preserves every thread's `wait_lock` unchanged — so a thread that
owns locks and is not blocked retains a stale `wait_lock` reference. -/
theorem acquire_wait_lock_stale (st : KState) (l : LockId) (r : AcqRes)
    (hok : lock_acquire st l = Except.ok r) :
    (r.state.threads st.current).wait_lock = some l
    ∧ (∀ st2 s t, ((sema_up st2 s).threads t).wait_lock = (st2.threads t).wait_lock)
    ∧ (∀ st2 s t, (((sema_down_step st2 s).state).threads t).wait_lock
        = (st2.threads t).wait_lock)
    ∧ (∀ st2 s, (sema_try_down st2 s).1.threads = st2.threads)
    ∧ (∀ st2 t, ((update_thread_priority st2).threads t).wait_lock
        = (st2.threads t).wait_lock)
    ∧ (∀ st2 a ol num t, ((donate_nested st2 a ol num).threads t).wait_lock
        = (st2.threads t).wait_lock)
    ∧ (∀ st2 l2 t, ((lock_acquire_finish st2 l2).threads t).wait_lock
        = (st2.threads t).wait_lock)
    ∧ (∀ st2 st3 l2 t, lock_release st2 l2 = Except.ok st3 →
        (st3.threads t).wait_lock = (st2.threads t).wait_lock)
    ∧ (∀ st2 st3 c l2 t, cond_signal st2 c l2 = Except.ok st3 →
        (st3.threads t).wait_lock = (st2.threads t).wait_lock)
    ∧ (∀ st2 st3 c l2 t, cond_broadcast st2 c l2 = Except.ok st3 →
        (st3.threads t).wait_lock = (st2.threads t).wait_lock) := by
  refine ⟨?_, sema_up_wait_lock, sema_down_step_wait_lock, sema_try_down_threads,
    update_thread_priority_wait_lock, fun st2 a ol num t => donate_fuel_wait_lock _ _ _ _ _ _,
    lock_acquire_finish_wait_lock,
    fun st2 st3 l2 t h => lock_release_wait_lock st2 st3 l2 t h,
    fun st2 st3 c l2 t h => cond_signal_wait_lock st2 st3 c l2 t h,
    fun st2 st3 c l2 t h => cond_broadcast_fuel_wait_lock _ st2 st3 c l2 t h⟩
  unfold lock_acquire at hok
  split at hok
  · exact absurd hok (by simp)
  next hnh =>
    dsimp only at hok
    have hcur : (donate_nested st st.current (some l) 0).current = st.current :=
      donate_fuel_current _ _ _ _ _
    split at hok
    next st3 hdown =>
      injection hok with hok
      subst hok
      simp only [AcqRes.state]
      rw [lock_acquire_finish_wait_lock]
      have h4 := congrArg (fun d => ((DownRes.state d).threads st.current).wait_lock) hdown
      dsimp only at h4
      simp only [DownRes_state_completed, DownRes_state_blocked] at h4
      rw [sema_down_step_wait_lock] at h4
      rw [← h4]
      simp [hcur]
    next st3 hdown =>
      injection hok with hok
      subst hok
      simp only [AcqRes.state]
      have h4 := congrArg (fun d => ((DownRes.state d).threads st.current).wait_lock) hdown
      dsimp only at h4
      simp only [DownRes_state_completed, DownRes_state_blocked] at h4
      rw [sema_down_step_wait_lock] at h4
      rw [← h4]
      simp [hcur]

/-- Witness for C4: acquiring the free lock 0 leaves thread 0's
`wait_lock` pointing at lock 0, and a `sema_up` elsewhere does not
change any thread's `wait_lock`. -/
theorem acquire_wait_lock_stale_witness :
    (exAcqRes.state.threads 0).wait_lock = some 0
    ∧ ((sema_up exUpState 0).threads 1).wait_lock = (exUpState.threads 1).wait_lock := by
  have h := acquire_wait_lock_stale exFree 0 exAcqRes rfl
  exact ⟨h.1, h.2.1 exUpState 0 1⟩

/-! ### C9: cond_signal and cond_broadcast -/

theorem sema_up_conds (st : KState) (s : SemId) :
    (sema_up st s).conds = st.conds := by
  unfold sema_up
  cases hw : (st.semas s).waiters <;> simp [thread_unblock_conds]

theorem sema_up_value_inc (st : KState) (s : SemId) :
    ((sema_up st s).semas s).value = (st.semas s).value + 1 := by
  unfold sema_up
  cases hw : (st.semas s).waiters with
  | nil => simp
  | cons w rest => simp [thread_unblock_semas]

theorem cond_signal_ok_conds (st st3 : KState) (c : CondId) (l : LockId)
    (w : CWaiter) (rest : List CWaiter) (hE : st.conds c = w :: rest)
    (hok : cond_signal st c l = Except.ok st3) : st3.conds c = rest := by
  unfold cond_signal at hok
  split at hok
  · injection hok with hok
    subst hok
    rw [hE]
    show (sema_up (setCond st c rest) w.semaId).conds c = rest
    rw [sema_up_conds]
    simp
  · exact absurd hok (by simp)

theorem cond_broadcast_fuel_empties (fuel : Nat) :
    ∀ st st2 c l, (st.conds c).length ≤ fuel →
      cond_broadcast_fuel fuel st c l = Except.ok st2 → st2.conds c = [] := by
  induction fuel with
  | zero =>
    intro st st2 c l hlen hok
    injection hok with hok
    subst hok
    exact List.length_eq_zero.mp (Nat.le_zero.mp hlen)
  | succ fuel ih =>
    intro st st2 c l hlen hok
    unfold cond_broadcast_fuel at hok
    split at hok
    next hE =>
      injection hok with hok
      subst hok
      exact hE
    next w rest hE =>
      split at hok
      · exact absurd hok (by simp)
      next st3 hsig =>
        have hc3 : st3.conds c = rest := cond_signal_ok_conds st st3 c l w rest hE hsig
        refine ih st3 st2 c l ?_ hok
        rw [hc3]
        rw [hE] at hlen
        simpa using Nat.le_of_succ_le_succ hlen

/-- C9: with the lock held, `cond_signal` on an empty waiter list changes
nothing; on a non-empty list it removes exactly the head waiter — which
has the highest snapshot when the list is sorted — and `up`s its private
semaphore (incrementing its value); and whenever `cond_broadcast`
returns normally the condition's waiter list is empty. -/
theorem cond_signal_broadcast_behavior (st : KState) (c : CondId) (l : LockId)
    (hheld : (st.locks l).holder = some st.current) :
    (st.conds c = [] → cond_signal st c l = Except.ok st)
    ∧ (∀ w rest, st.conds c = w :: rest →
        cond_signal st c l = Except.ok (sema_up (setCond st c rest) w.semaId)
        ∧ (sema_up (setCond st c rest) w.semaId).conds c = rest
        ∧ ((sema_up (setCond st c rest) w.semaId).semas w.semaId).value
            = (st.semas w.semaId).value + 1
        ∧ (((st.conds c).map CWaiter.priority).Pairwise (· ≥ ·) →
            ∀ x ∈ rest, x.priority ≤ w.priority))
    ∧ (∀ st2, cond_broadcast st c l = Except.ok st2 → st2.conds c = []) := by
  have hlh : lock_held_by_current_thread st l = true := by
    simp [lock_held_by_current_thread, hheld]
  refine ⟨fun hE => ?_, fun w rest hE => ⟨?_, ?_, ?_, fun hs x hx => ?_⟩, fun st2 hok => ?_⟩
  · unfold cond_signal
    rw [if_pos hlh, hE]
  · unfold cond_signal
    rw [if_pos hlh, hE]
  · rw [sema_up_conds]
    simp
  · have h1 : ((setCond st c rest).semas w.semaId) = st.semas w.semaId := rfl
    rw [sema_up_value_inc, h1]
  · rw [hE] at hs
    simp only [List.map_cons, List.pairwise_cons] at hs
    exact hs.1 x.priority (List.mem_map_of_mem CWaiter.priority hx)
  · unfold cond_broadcast at hok
    exact cond_broadcast_fuel_empties _ st st2 c l (le_refl _) hok

/-- Witness for C9 on the two-waiter condition variable. -/
theorem cond_signal_broadcast_behavior_witness :
    cond_signal exCond 0 0
        = Except.ok
            (sema_up (setCond exCond 0 [{ semaId := 8, priority := 20 }]) 7)
    ∧ (sema_up (setCond exCond 0 [{ semaId := 8, priority := 20 }]) 7).conds 0
        = [{ semaId := 8, priority := 20 }]
    ∧ ((sema_up (setCond exCond 0 [{ semaId := 8, priority := 20 }]) 7).semas 7).value
        = (exCond.semas 7).value + 1
    ∧ exBroadcastRes.conds 0 = [] := by
  have h := cond_signal_broadcast_behavior exCond 0 0 (by decide)
  have h2 := h.2.1 { semaId := 7, priority := 30 } [{ semaId := 8, priority := 20 }] rfl
  exact ⟨h2.1, h2.2.1, h2.2.2.1, h.2.2 exBroadcastRes rfl⟩

/-! ### C8: cond_wait up to its suspension point -/

theorem cond_priority_higher_eq :
    cond_priority_higher
      = fun a b => ((CWaiter.priority a > CWaiter.priority b : Prop) : Bool) := rfl

theorem update_thread_priority_semas (st : KState) :
    (update_thread_priority st).semas = st.semas := by
  unfold update_thread_priority
  split
  · rfl
  · split
    · rfl
    · split <;> rfl

theorem update_thread_priority_locks (st : KState) :
    (update_thread_priority st).locks = st.locks := by
  unfold update_thread_priority
  split
  · rfl
  · split
    · rfl
    · split <;> rfl

theorem update_thread_priority_conds (st : KState) :
    (update_thread_priority st).conds = st.conds := by
  unfold update_thread_priority
  split
  · rfl
  · split
    · rfl
    · split <;> rfl

theorem update_thread_priority_current (st : KState) :
    (update_thread_priority st).current = st.current := by
  unfold update_thread_priority
  split
  · rfl
  · split
    · rfl
    · split <;> rfl

theorem update_thread_priority_locks_field (st : KState) (t : Tid) :
    ((update_thread_priority st).threads t).locks = (st.threads t).locks := by
  unfold update_thread_priority
  by_cases h : t = st.current
  · subst h
    split
    · rfl
    · split <;> [simp; skip]
      split <;> simp
  · split
    · rfl
    · split <;> [simp [h]; skip]
      split <;> simp [h]

theorem sema_up_locks (st : KState) (s : SemId) :
    (sema_up st s).locks = st.locks := by
  unfold sema_up
  cases hw : (st.semas s).waiters <;> simp [thread_unblock_locks]

theorem sema_up_current (st : KState) (s : SemId) :
    (sema_up st s).current = st.current := by
  unfold sema_up
  cases hw : (st.semas s).waiters <;> simp [thread_unblock_current]

theorem sema_up_locks_field (st : KState) (s : SemId) (t : Tid) :
    ((sema_up st s).threads t).locks = (st.threads t).locks := by
  unfold sema_up
  cases hw : (st.semas s).waiters with
  | nil => simp
  | cons w rest => by_cases h : t = w <;> simp [h]

theorem sema_up_semas_other (st : KState) (s s2 : SemId) (h : s2 ≠ s) :
    (sema_up st s).semas s2 = st.semas s2 := by
  unfold sema_up
  cases hw : (st.semas s).waiters with
  | nil => simp [h]
  | cons w rest => simp [thread_unblock_semas, h]

/-- Reduction of `lock_release` on the held path. -/
theorem lock_release_held_eq (stX : KState) (l : LockId)
    (h : (stX.locks l).holder = some stX.current) :
    lock_release stX l
      = Except.ok
          (sema_up
            (update_thread_priority
              (setLock
                (setThread stX stX.current
                  { stX.threads stX.current with
                    locks := (stX.threads stX.current).locks.erase l })
                l
                { (setThread stX stX.current
                    { stX.threads stX.current with
                      locks := (stX.threads stX.current).locks.erase l }).locks l with
                  holder := none }))
            ((stX.locks l).semaId)) := by
  unfold lock_release
  rw [if_pos (by simp [lock_held_by_current_thread, h])]

/-- C8: with the lock held and a fresh private semaphore, `cond_wait`
runs to its suspension point: it creates the waiter with a zero-valued
private semaphore and the caller's current priority as snapshot, inserts
it into the condition's list in snapshot order (preserving sortedness),
releases the lock with full release semantics (holder cleared, the lock
removed from the caller's held set, priority recomputed by
`update_thread_priority`), and blocks the caller on the private
semaphore; the post-wake remainder is exactly `lock_acquire`. -/
theorem cond_wait_behavior (st : KState) (c : CondId) (l : LockId) (newSem : SemId)
    (hheld : (st.locks l).holder = some st.current)
    (hfresh : newSem ≠ (st.locks l).semaId) :
    ∃ stb, cond_wait st c l newSem = Except.ok (DownRes.blocked stb)
      ∧ stb.conds c
          = list_insert_ordered cond_priority_higher
              { semaId := newSem, priority := (st.threads st.current).priority } (st.conds c)
      ∧ (((st.conds c).map CWaiter.priority).Pairwise (· ≥ ·) →
          ((stb.conds c).map CWaiter.priority).Pairwise (· ≥ ·))
      ∧ (stb.locks l).holder = none
      ∧ (stb.threads st.current).locks = ((st.threads st.current).locks).erase l
      ∧ (stb.semas newSem).waiters = [st.current]
      ∧ (stb.threads st.current).wait_semaphore = some newSem
      ∧ (stb.threads st.current).status = TStatus.blocked
      ∧ (∀ st4 l4, cond_wait_rest st4 l4 = lock_acquire st4 l4) := by
  have hlh : lock_held_by_current_thread st l = true := by
    simp [lock_held_by_current_thread, hheld]
  unfold cond_wait
  rw [if_pos hlh]
  dsimp only
  set st1 := sema_init st newSem 0 with hA
  set wtr : CWaiter :=
    { semaId := newSem, priority := (st1.threads st1.current).priority } with hW
  set st2 := setCond st1 c (list_insert_ordered cond_priority_higher wtr (st1.conds c))
    with hB
  have hheld2 : (st2.locks l).holder = some st2.current := by
    rw [hB, hA]
    simpa [sema_init] using hheld
  rw [lock_release_held_eq st2 l hheld2]
  dsimp only
  set stRel := sema_up
      (update_thread_priority
        (setLock
          (setThread st2 st2.current
            { st2.threads st2.current with
              locks := (st2.threads st2.current).locks.erase l })
          l
          { (setThread st2 st2.current
              { st2.threads st2.current with
                locks := (st2.threads st2.current).locks.erase l }).locks l with
            holder := none }))
      ((st2.locks l).semaId) with hC
  have hsid2 : (st2.locks l).semaId = (st.locks l).semaId := by
    rw [hB, hA]
    rfl
  have hsemNew : stRel.semas newSem = { value := 0, waiters := [] } := by
    rw [hC, sema_up_semas_other _ _ _ (by rw [hsid2]; exact hfresh)]
    rw [show (update_thread_priority
        (setLock
          (setThread st2 st2.current
            { st2.threads st2.current with
              locks := (st2.threads st2.current).locks.erase l })
          l
          { (setThread st2 st2.current
              { st2.threads st2.current with
                locks := (st2.threads st2.current).locks.erase l }).locks l with
            holder := none })).semas = _ from update_thread_priority_semas _]
    rw [hB, hA]
    simp [sema_init]
  have hcur2 : st2.current = st.current := by rw [hB, hA]; rfl
  have hcurRel : stRel.current = st.current := by
    rw [hC, sema_up_current, update_thread_priority_current]
    simpa using hcur2
  have hvalNew : (stRel.semas newSem).value = 0 := by rw [hsemNew]
  unfold sema_down_step
  rw [if_pos hvalNew]
  refine ⟨_, rfl, ?_, ?_, ?_, ?_, ?_, ?_, ?_, fun st4 l4 => rfl⟩
  · -- conds
    show (thread_block _).conds c = _
    rw [show ∀ stY : KState, (thread_block stY).conds = stY.conds from fun _ => rfl]
    simp only [setThread_conds, setSema_conds]
    rw [hC, sema_up_conds, update_thread_priority_conds]
    simp only [setLock_conds, setThread_conds]
    rw [hB]
    simp only [setCond_apply, if_pos rfl]
    rw [hW, hA]
    rfl
  · -- sortedness
    intro hs
    rw [show (thread_block (setThread
        (setSema stRel newSem
          { stRel.semas newSem with
            waiters := list_insert_ordered (priority_higher stRel) stRel.current
              (stRel.semas newSem).waiters })
        stRel.current
        { (setSema stRel newSem
            { stRel.semas newSem with
              waiters := list_insert_ordered (priority_higher stRel) stRel.current
                (stRel.semas newSem).waiters }).threads stRel.current with
          wait_semaphore := some newSem })).conds c
        = list_insert_ordered cond_priority_higher
            { semaId := newSem, priority := (st.threads st.current).priority }
            (st.conds c) from ?_]
    · rw [cond_priority_higher_eq]
      exact insert_ordered_sorted CWaiter.priority _ _ hs
    · show (thread_block _).conds c = _
      rw [show ∀ stY : KState, (thread_block stY).conds = stY.conds from fun _ => rfl]
      simp only [setThread_conds, setSema_conds]
      rw [hC, sema_up_conds, update_thread_priority_conds]
      simp only [setLock_conds, setThread_conds]
      rw [hB]
      simp only [setCond_apply, if_pos rfl]
      rw [hW, hA]
      rfl
  · -- holder cleared
    show ((thread_block _).locks l).holder = none
    rw [show ∀ stY : KState, (thread_block stY).locks = stY.locks from fun _ => rfl]
    simp only [setThread_locks, setSema_locks]
    rw [hC, sema_up_locks, update_thread_priority_locks]
    simp
  · -- lock removed from caller's held set
    show ((thread_block _).threads st.current).locks = _
    have hlocksRel : (stRel.threads st.current).locks
        = ((st.threads st.current).locks).erase l := by
      rw [hC, sema_up_locks_field, update_thread_priority_locks_field]
      simp only [setLock_threads]
      rw [show (setThread st2 st2.current
          { st2.threads st2.current with
            locks := (st2.threads st2.current).locks.erase l }).threads st.current
          = { st2.threads st2.current with
              locks := (st2.threads st2.current).locks.erase l } from by simp [hcur2]]
      show ((st2.threads st2.current).locks).erase l = ((st.threads st.current).locks).erase l
      rw [hcur2]
      exact rfl
    simp [hcurRel, hlocksRel]
  · -- blocked on the private semaphore
    show ((thread_block _).semas newSem).waiters = _
    rw [show ∀ stY : KState, (thread_block stY).semas = stY.semas from fun _ => rfl]
    simp only [setThread_semas, setSema_apply, if_pos rfl]
    rw [hsemNew, hcurRel]
    rfl
  · -- wait_semaphore recorded
    show ((thread_block _).threads st.current).wait_semaphore = _
    simp [hcurRel]
  · -- status blocked
    show ((thread_block _).threads st.current).status = _
    simp [hcurRel]

/-- Witness for C8 on `exCond` with fresh semaphore 9: the waiter with
snapshot 31 lands in front of the snapshots 30 and 20, the lock is
released and thread 0 blocks on semaphore 9. -/
theorem cond_wait_behavior_witness :
    exCondWaitRes.conds 0
        = [{ semaId := 9, priority := 31 }, { semaId := 7, priority := 30 },
           { semaId := 8, priority := 20 }]
    ∧ (exCondWaitRes.locks 0).holder = none
    ∧ (exCondWaitRes.threads 0).locks = []
    ∧ (exCondWaitRes.semas 9).waiters = [0]
    ∧ (exCondWaitRes.threads 0).wait_semaphore = some 9
    ∧ (exCondWaitRes.threads 0).status = TStatus.blocked := by
  obtain ⟨stb, heq, hconds, hsort, hhold, hlocks, hwait, hws, hstat, hrest⟩ :=
    cond_wait_behavior exCond 0 0 9 (by decide) (by decide)
  have hsub : exCondWaitRes = stb := by
    unfold exCondWaitRes
    rw [heq]
  rw [hsub]
  refine ⟨hconds.trans (by decide), hhold, hlocks.trans (by decide), hwait, hws, hstat⟩

end Synch
